import Mathlib

/-!
# fertilesoil: reconcile controller and directory storage driver

A shallow embedding of

* `app/v1/controllerimpl.go` (the reconcile controller), and
* `storage/crdb/driver/driver.go` (the SQL directory driver),

followed by the properties established about them.

Conventions of the embedding.

* Go's `(value, error)` results are `Except GoError value`; a bare `error`
  result is `Option GoError` (`none` is Go's `nil`).
* Stateful collaborators are explicit state passing: an operation takes the
  state and returns the new state next to its result.
* `context.Context` is dropped (cancellation is not modelled).
* `time.Now()` is read from a clock value that is passed in.
-/

namespace Fertilesoil

/-! ## Data model (package `api/v1`, as used by the two source files) -/

/-- Directory identifier (`apiv1.DirectoryID`, a UUID): an opaque key with equality. -/
abbrev DirectoryID := Nat

/-- Timestamps (`time.Time`), as ticks. -/
abbrev Time := Nat

/-- Directory metadata (`apiv1.DirectoryMetadata`), a key-value map. -/
abbrev DirectoryMetadata := List (String × String)

/-- The directory record `apiv1.Directory`; pointer fields that may be nil are options. -/
structure Directory where
  Id : DirectoryID
  Name : String
  Metadata : Option DirectoryMetadata
  CreatedAt : Time
  UpdatedAt : Time
  DeletedAt : Option Time
  Parent : Option DirectoryID
deriving DecidableEq, Repr

/-- The method `Directory.IsDeleted`: the deletion timestamp is present. -/
def Directory.IsDeleted (d : Directory) : Bool := d.DeletedAt.isSome

/-- Event types `apiv1.EventTypeCreate`, `EventTypeUpdate`, `EventTypeDelete`. -/
inductive EventType where
  | Create
  | Update
  | Delete
deriving DecidableEq, Repr

/-- Go error values: the sentinels of package `storage` and of the controller,
`sql.ErrNoRows`, any other collaborator error, and `fmt.Errorf("msg: %w", err)`. -/
inductive GoError where
  | ErrReadOnly
  | ErrRootWithParentDirectory
  | ErrDirectoryWithoutParent
  | ErrDirectoryNotFound
  | ErrNoReconciler
  | sqlErrNoRows
  | other (code : Nat)
  | wrap (msg : String) (inner : GoError)
deriving DecidableEq, Repr

/-- Go's `errors.Is(err, target)` for these errors: walk the `%w` chain. -/
def GoError.errorsIs : GoError → GoError → Bool
  | GoError.wrap msg inner, target =>
      decide (GoError.wrap msg inner = target) || GoError.errorsIs inner target
  | e, target => decide (e = target)

/-- The API version tag `apiv1.APIVersion` (declared in `api/v1`). -/
def APIVersion : String := "v1"

/-- The event record `apiv1.DirectoryEvent`; `Version` is the field of the embedded
`DirectoryRequestMeta`, `Typ` is the Go field `Type`. -/
structure DirectoryEvent where
  Version : String
  Time : Time
  Typ : EventType
  Directory : Directory
deriving DecidableEq, Repr

/-- The result record of the client call `GetDirectory` (`apiv1.DirectoryFetch`). -/
structure DirectoryFetch where
  Directory : Directory
deriving DecidableEq, Repr

/-- The result record of the client call `GetChildren` (`apiv1.DirectoryList`). -/
structure DirectoryList where
  Directories : List DirectoryID
deriving DecidableEq, Repr

/-! ## Collaborator interfaces of the controller -/

/-- The interface `AppStorage` over a store state `σ`. The two queries read the state;
the two mutations return the new state. A mutation may change the state even when it
fails. The store is taken not to write through the `*Directory` it is handed. -/
structure AppStorage (σ : Type) where
  IsDirectoryTracked : σ → DirectoryID → Except GoError Bool
  IsDirectoryInfoUpdated : σ → Directory → Except GoError Bool
  CreateDirectory : σ → Directory → σ × Except GoError Directory
  DeleteDirectory : σ → DirectoryID → σ × Except GoError (List Directory)

/-- The interface `Reconciler` over a reconciler state `ρ`. -/
structure Reconciler (ρ : Type) where
  Reconcile : ρ → DirectoryEvent → ρ × Option GoError

/-- The interface `clientv1.ReadOnlyClient`: reads of the authoritative state, which is
fixed for the duration of one handler. -/
structure ReadOnlyClient where
  GetDirectory : DirectoryID → Except GoError DirectoryFetch
  GetChildren : DirectoryID → Except GoError DirectoryList

/-- The struct `controller` (the watcher field is left out: the events it delivers are
inputs of `processIncomingEvent`). -/
structure controller (σ ρ : Type) where
  c : ReadOnlyClient
  baseDir : DirectoryID
  store : AppStorage σ
  r : Reconciler ρ
  frMinimumInterval : Int
  frMaximumInterval : Int
  frDuration : Int

/-- The mutating collaborator calls a handler makes, in order. -/
inductive Call where
  | storeCreateDirectory (d : Directory)
  | storeDeleteDirectory (id : DirectoryID)
  | reconcile (ev : DirectoryEvent)
deriving DecidableEq, Repr

/-- Whether a recorded call is a `Reconciler.Reconcile` call. -/
def Call.isReconcile : Call → Bool
  | Call.reconcile _ => true
  | _ => false

/-- What a handler runs against: the store state, the reconciler state, the clock, and
the record of mutating calls made so far. -/
structure World (σ ρ : Type) where
  store : σ
  recon : ρ
  now : Time
  trace : List Call

/-- Number of `Reconcile` calls recorded in a world. -/
def World.reconcileCalls {σ ρ : Type} (w : World σ ρ) : Nat :=
  (w.trace.filter Call.isReconcile).length

/-! ## The controller (`app/v1/controllerimpl.go`) -/

/-- The method `persistDirectory`. -/
def controller.persistDirectory {σ ρ : Type} (c : controller σ ρ) (w : World σ ρ)
    (d : Directory) : World σ ρ × Option GoError :=
  if d.IsDeleted then
    match c.store.DeleteDirectory w.store d.Id with
    | (s, Except.error err) =>
        ({ w with store := s, trace := w.trace ++ [Call.storeDeleteDirectory d.Id] }, some err)
    | (s, Except.ok _) =>
        let ev : DirectoryEvent :=
          { Version := APIVersion, Time := w.now, Typ := EventType.Delete, Directory := d }
        let out := c.r.Reconcile w.recon ev
        ({ store := s, recon := out.1, now := w.now,
           trace := w.trace ++ [Call.storeDeleteDirectory d.Id, Call.reconcile ev] }, out.2)
  else
    match c.store.CreateDirectory w.store d with
    | (s, Except.error err) =>
        ({ w with store := s, trace := w.trace ++ [Call.storeCreateDirectory d] }, some err)
    | (s, Except.ok _) =>
        let ev : DirectoryEvent :=
          { Version := APIVersion, Time := w.now, Typ := EventType.Create, Directory := d }
        let out := c.r.Reconcile w.recon ev
        ({ store := s, recon := out.1, now := w.now,
           trace := w.trace ++ [Call.storeCreateDirectory d, Call.reconcile ev] }, out.2)

/-- The method `persistIfUpToDate`. -/
def controller.persistIfUpToDate {σ ρ : Type} (c : controller σ ρ) (w : World σ ρ)
    (dir : DirectoryID) : World σ ρ × Option GoError :=
  match c.c.GetDirectory dir with
  | Except.error err => (w, some err)
  | Except.ok fd =>
      match c.store.IsDirectoryInfoUpdated w.store fd.Directory with
      | Except.error err => (w, some err)
      | Except.ok upToDate =>
          if upToDate then (w, none) else c.persistDirectory w fd.Directory

/-- The loop `for _, subdir := range subdirs.Directories` of `initializeDirectories`. -/
def controller.persistSubdirs {σ ρ : Type} (c : controller σ ρ) :
    World σ ρ → List DirectoryID → World σ ρ × Option GoError
  | w, [] => (w, none)
  | w, subdir :: rest =>
      match c.persistIfUpToDate w subdir with
      | (w1, some err) => (w1, some err)
      | (w1, none) => controller.persistSubdirs c w1 rest

/-- The method `initializeDirectories`. -/
def controller.initializeDirectories {σ ρ : Type} (c : controller σ ρ) (w : World σ ρ) :
    World σ ρ × Option GoError :=
  match c.persistIfUpToDate w c.baseDir with
  | (w1, some err) => (w1, some err)
  | (w1, none) =>
      match c.c.GetChildren c.baseDir with
      | Except.error err => (w1, some err)
      | Except.ok subdirs => c.persistSubdirs w1 subdirs.Directories

/-- The method `isRelevantEvent`. -/
def controller.isRelevantEvent {σ ρ : Type} (c : controller σ ρ) (s : σ)
    (ev : DirectoryEvent) : Except GoError Bool :=
  match c.store.IsDirectoryTracked s ev.Directory.Id with
  | Except.error err =>
      Except.error (GoError.wrap "error checking if directory is tracked" err)
  | Except.ok tracking =>
      if tracking then Except.ok true
      else if ev.Typ ≠ EventType.Create then Except.ok false
      else
        match ev.Directory.Parent with
        | none => Except.ok false
        | some parent =>
            match c.store.IsDirectoryTracked s parent with
            | Except.error err =>
                Except.error (GoError.wrap "error checking if parent directory is tracked" err)
            | Except.ok trackingParent => Except.ok trackingParent

/-- The tail of `processIncomingEvent`: `persistDirectory` with its error wrapped. -/
def controller.persistEventDirectory {σ ρ : Type} (c : controller σ ρ) (w : World σ ρ)
    (d : Directory) : World σ ρ × Option GoError :=
  match c.persistDirectory w d with
  | (w1, some err) => (w1, some (GoError.wrap "error persisting directory" err))
  | (w1, none) => (w1, none)

/-- The method `processIncomingEvent`. -/
def controller.processIncomingEvent {σ ρ : Type} (c : controller σ ρ) (w : World σ ρ)
    (ev : DirectoryEvent) : World σ ρ × Option GoError :=
  match c.isRelevantEvent w.store ev with
  | Except.error err =>
      (w, some (GoError.wrap "error checking if directory is tracked" err))
  | Except.ok isRelevant =>
      if !isRelevant then (w, none) else c.persistEventDirectory w ev.Directory

/-- The event arm of the `Run` loop over a sequence of delivered events: each event is
handled by `processIncomingEvent`, and the first error ends the loop. -/
def controller.processEvents {σ ρ : Type} (c : controller σ ρ) :
    World σ ρ → List DirectoryEvent → World σ ρ × Option GoError
  | w, [] => (w, none)
  | w, ev :: rest =>
      match c.processIncomingEvent w ev with
      | (w1, some err) => (w1, some err)
      | (w1, none) => controller.processEvents c w1 rest

/-! ## Vocabulary of the controller properties -/

/-- A directory id is tracked in a store state: `IsDirectoryTracked` answers true. -/
def controller.Tracked {σ ρ : Type} (c : controller σ ρ) (s : σ) (id : DirectoryID) : Prop :=
  c.store.IsDirectoryTracked s id = Except.ok true

/-- The relevance predicate as the specification words it: the directory is tracked, or
the event is a `Create`, the directory has a parent, and the parent is tracked. -/
def controller.Relevant {σ ρ : Type} (c : controller σ ρ) (s : σ) (ev : DirectoryEvent) : Prop :=
  c.Tracked s ev.Directory.Id ∨
    (ev.Typ = EventType.Create ∧ ∃ p, ev.Directory.Parent = some p ∧ c.Tracked s p)

/-- What the controller relies on from an `AppStorage` for confinement (section 4.2 of the
specification: `CreateDirectory` is an insert or upsert by id, `DeleteDirectory` removes
from the mirror): a mutation, failed or not, starts tracking no id other than the one
created. -/
structure AppStorage.Lawful {σ : Type} (store : AppStorage σ) : Prop where
  create_tracks : ∀ (s : σ) (d : Directory) (x : DirectoryID),
    store.IsDirectoryTracked (store.CreateDirectory s d).1 x = Except.ok true →
      x = d.Id ∨ store.IsDirectoryTracked s x = Except.ok true
  delete_tracks : ∀ (s : σ) (id x : DirectoryID),
    store.IsDirectoryTracked (store.DeleteDirectory s id).1 x = Except.ok true →
      store.IsDirectoryTracked s x = Except.ok true

/-- The subtree of `base` as the delivered events describe it: `base` itself, and the
directory of every `Create` event whose parent is in the subtree. -/
inductive InSubtree (base : DirectoryID) (evs : List DirectoryEvent) : DirectoryID → Prop where
  | root : InSubtree base evs base
  | child (ev : DirectoryEvent) (p : DirectoryID) :
      ev ∈ evs → ev.Typ = EventType.Create → ev.Directory.Parent = some p →
      InSubtree base evs p → InSubtree base evs ev.Directory.Id

/-! ## The directory driver (`storage/crdb/driver/driver.go`)

The table `directories` is the list of its rows, a row being a `Directory`
(`id, name, metadata, created_at, updated_at, deleted_at, parent_id`). Every statement is
evaluated on the current table: the follower-read clause that `fastReads` adds to read
queries chooses the snapshot a query runs at and is not modelled further. Failures of the
connection itself are not modelled. -/

/-- The struct `Driver`: `db` is the table `directories`. -/
structure Driver where
  db : List Directory
  readOnly : Bool
  fastReads : Bool
deriving DecidableEq, Repr

/-- The constant `followerReadsQuery`. -/
def followerReadsQuery : String := "AS OF SYSTEM TIME follower_read_timestamp()"

/-- The method `formatQuery`, as the clause it substitutes for the one formatting
argument of a read query. -/
def Driver.formatQuery (t : Driver) : String :=
  if t.fastReads then followerReadsQuery else ""

/-- A row of the recursive common table expressions: the columns `id, parent_id`. -/
abbrev IdParent := DirectoryID × Option DirectoryID

/-- The projection `SELECT id, parent_id` of a row. -/
def Directory.idParent (d : Directory) : IdParent := (d.Id, d.Parent)

/-- One round of `WITH RECURSIVE ... UNION`: evaluate the recursive term on the working
table, discard duplicates and the rows already in the result, append what is left to the
result and make it the next working table; stop when nothing is left. `fuel` bounds the
number of rounds. -/
def recursiveUnion {α : Type} [DecidableEq α] (step : List α → List α) :
    Nat → List α → List α → List α
  | 0, acc, _ => acc
  | fuel + 1, acc, work =>
      let fresh := ((step work).dedup).filter (fun x => decide (x ∉ acc))
      if fresh = [] then acc else recursiveUnion step fuel (acc ++ fresh) fresh

/-- The result of `WITH RECURSIVE cte AS (seed UNION step)`: the seed rows without
duplicates, then the rows of each round, in the order they were found. -/
def withRecursive {α : Type} [DecidableEq α] (seed : List α) (step : List α → List α)
    (fuel : Nat) : List α :=
  recursiveUnion step fuel seed.dedup seed.dedup

/-- The id the database generates for an inserted row: one no row of the table has. -/
def Driver.generatedId (t : Driver) : DirectoryID :=
  (t.db.foldl (fun m d => max m d.Id) 0) + 1

/-- The method `CreateRoot`. The `INSERT` adds a row with a generated id, both timestamps
`NOW()`, no parent and no deletion time. -/
def Driver.CreateRoot (t : Driver) (now : Time) (d : Directory) :
    Driver × Except GoError Directory :=
  if t.readOnly then (t, Except.error GoError.ErrReadOnly)
  else if d.Parent ≠ none then (t, Except.error GoError.ErrRootWithParentDirectory)
  else
    let metadata := match d.Metadata with
      | none => some []
      | some m => some m
    let row : Directory :=
      { Id := t.generatedId, Name := d.Name, Metadata := metadata, CreatedAt := now,
        UpdatedAt := now, DeletedAt := none, Parent := none }
    ({ t with db := t.db ++ [row] },
     Except.ok { d with Metadata := metadata, Id := row.Id, CreatedAt := now, UpdatedAt := now })

/-- The method `CreateDirectory`. The `INSERT` adds a row with a generated id and both
timestamps `NOW()`. Modelled from the spec: the column `parent_id` references `id`
(section 6), so the insert fails when no row has the parent's id; the schema itself is
not among the source files. -/
def Driver.CreateDirectory (t : Driver) (now : Time) (d : Directory) :
    Driver × Except GoError Directory :=
  if t.readOnly then (t, Except.error GoError.ErrReadOnly)
  else
    match d.Parent with
    | none => (t, Except.error GoError.ErrDirectoryWithoutParent)
    | some parent =>
        let metadata := match d.Metadata with
          | none => some []
          | some m => some m
        if t.db.any (fun r => r.Id == parent) then
          let row : Directory :=
            { Id := t.generatedId, Name := d.Name, Metadata := metadata, CreatedAt := now,
              UpdatedAt := now, DeletedAt := none, Parent := some parent }
          ({ t with db := t.db ++ [row] },
           Except.ok { d with Metadata := metadata, Id := row.Id, CreatedAt := now,
                              UpdatedAt := now })
        else
          (t, Except.error (GoError.wrap "error inserting directory" (GoError.other 23503)))

/-- The method `UpdateDirectory`. The `UPDATE ... WHERE id = $3 RETURNING updated_at`
rewrites every row with the id; `Scan` on no returned row is `sql.ErrNoRows`. The `ok`
value is the caller's record after the call (metadata defaulted, `UpdatedAt` scanned). -/
def Driver.UpdateDirectory (t : Driver) (now : Time) (d : Directory) :
    Driver × Except GoError Directory :=
  if t.readOnly then (t, Except.error GoError.ErrReadOnly)
  else
    let metadata := match d.Metadata with
      | none => some []
      | some m => some m
    let db1 := t.db.map fun r =>
      if r.Id == d.Id then { r with Name := d.Name, Metadata := metadata, UpdatedAt := now }
      else r
    match (t.db.filter fun r => r.Id == d.Id) with
    | [] => (t, Except.error (GoError.wrap "error updating directory" GoError.sqlErrNoRows))
    | _ :: _ => ({ t with db := db1 }, Except.ok { d with Metadata := metadata, UpdatedAt := now })

/-- The seed of `get_children` in `DeleteDirectory`:
`WHERE id = $1 AND deleted_at IS NULL AND parent_id IS NOT NULL`. -/
def deleteSeed (db : List Directory) (id : DirectoryID) : List IdParent :=
  (db.filter fun d => d.Id == id && d.DeletedAt.isNone && d.Parent.isSome).map
    Directory.idParent

/-- The recursive term of `get_children` in `DeleteDirectory`:
`directories d INNER JOIN get_children gc ON d.parent_id = gc.id WHERE d.deleted_at IS NULL`.
A row `d` matching several working rows appears once; `UNION` discards the duplicates. -/
def deleteStep (db : List Directory) (work : List IdParent) : List IdParent :=
  (db.filter fun d => d.DeletedAt.isNone && work.any (fun gc => d.Parent == some gc.1)).map
    Directory.idParent

/-- The common table expression `get_children` of `DeleteDirectory`. -/
def deleteChildren (db : List Directory) (id : DirectoryID) : List IdParent :=
  withRecursive (deleteSeed db id) (deleteStep db) db.length

/-- The `WHERE` clause of the `UPDATE` in `DeleteDirectory`:
`deleted_at IS NULL AND id IN (SELECT id FROM get_children)`. -/
def deleteHit (db : List Directory) (id : DirectoryID) (d : Directory) : Bool :=
  d.DeletedAt.isNone && ((deleteChildren db id).map Prod.fst).contains d.Id

/-- The method `DeleteDirectory`: the `UPDATE` sets `deleted_at = NOW()` on the rows the
`WHERE` clause selects and returns them as updated; no returned row is
`ErrDirectoryNotFound`. -/
def Driver.DeleteDirectory (t : Driver) (now : Time) (id : DirectoryID) :
    Driver × Except GoError (List Directory) :=
  let affected := (t.db.filter (deleteHit t.db id)).map fun d =>
    { d with DeletedAt := some now }
  let db1 := t.db.map fun d =>
    if deleteHit t.db id d then { d with DeletedAt := some now } else d
  if affected.length = 0 then ({ t with db := db1 }, Except.error GoError.ErrDirectoryNotFound)
  else ({ t with db := db1 }, Except.ok affected)

/-- The method `GetDirectory`; `withDeleted` is the option `WithDeletedDirectories`.
`QueryRow` takes the first row of the result; none is `sql.ErrNoRows`, which the method
turns into `ErrDirectoryNotFound`. -/
def Driver.GetDirectory (t : Driver) (id : DirectoryID) (withDeleted : Bool) :
    Except GoError Directory :=
  match (t.db.filter fun d => d.Id == id && (withDeleted || d.DeletedAt.isNone)) with
  | [] => Except.error GoError.ErrDirectoryNotFound
  | d :: _ => Except.ok d

/-- The seed of `get_parents` in `GetParents`:
`WHERE id = $1 AND (withDeleted OR deleted_at IS NULL)`. -/
def parentsSeed (db : List Directory) (child : DirectoryID) (withDeleted : Bool) :
    List IdParent :=
  (db.filter fun d => d.Id == child && (withDeleted || d.DeletedAt.isNone)).map
    Directory.idParent

/-- The recursive term of `get_parents` in `GetParents`:
`directories d INNER JOIN get_parents gp ON d.id = gp.parent_id
WHERE (withDeleted OR d.deleted_at IS NULL)`. -/
def parentsStep (db : List Directory) (withDeleted : Bool) (work : List IdParent) :
    List IdParent :=
  (db.filter fun d =>
    (withDeleted || d.DeletedAt.isNone) && work.any (fun gp => gp.2 == some d.Id)).map
    Directory.idParent

/-- The method `GetParents`: the ids of `get_parents` in result order, without the first
(the child); an empty result is `ErrDirectoryNotFound`. -/
def Driver.GetParents (t : Driver) (child : DirectoryID) (withDeleted : Bool) :
    Except GoError (List DirectoryID) :=
  let parents :=
    (withRecursive (parentsSeed t.db child withDeleted) (parentsStep t.db withDeleted)
      t.db.length).map Prod.fst
  if parents.length = 0 then Except.error GoError.ErrDirectoryNotFound
  else Except.ok (parents.drop 1)

/-! ## Vocabulary of the driver properties -/

/-- The directories a cascading delete of `id` reaches: `id` itself, and every live row
whose parent is reached. -/
inductive LiveDescendant (db : List Directory) (id : DirectoryID) : DirectoryID → Prop where
  | self : LiveDescendant db id id
  | child (d : Directory) (p : DirectoryID) :
      LiveDescendant db id p → d ∈ db → d.DeletedAt = none → d.Parent = some p →
      LiveDescendant db id d.Id

/-- The join condition of the recursive term of `get_children`: `y` is the projection of
a live row whose parent is the id of `x`. -/
def DeleteRel (db : List Directory) (x y : IdParent) : Prop :=
  ∃ d ∈ db, d.DeletedAt = none ∧ d.Parent = some x.1 ∧ y = d.idParent

/-- The id has a live row that is not a root: what the seed of `get_children` selects. -/
def LiveNonRoot (db : List Directory) (id : DirectoryID) : Prop :=
  ∃ d ∈ db, d.Id = id ∧ d.DeletedAt = none ∧ d.Parent ≠ none

/-- The parent relation of a table: some row with id `x` has parent `p`. -/
def ParentOf (db : List Directory) (x p : DirectoryID) : Prop :=
  ∃ d ∈ db, d.Id = x ∧ d.Parent = some p

/-- A table is acyclic: no directory is its own ancestor. -/
def Acyclic (db : List Directory) : Prop :=
  ∀ x, ¬ Relation.TransGen (ParentOf db) x x

/-- The ids of a table are unique (`id` is the key of `directories`). -/
def UniqueIds (db : List Directory) : Prop :=
  (db.map Directory.Id).Nodup

/-- The list `ps` is the chain of live ancestors of the live directory `d`: immediate
parent first, ending with a live root. -/
def LiveAncestors (db : List Directory) : DirectoryID → List DirectoryID → Prop
  | d, [] => ∃ r ∈ db, r.Id = d ∧ r.DeletedAt = none ∧ r.Parent = none
  | d, p :: ps =>
      (∃ r ∈ db, r.Id = d ∧ r.DeletedAt = none ∧ r.Parent = some p) ∧ LiveAncestors db p ps

/-- The rows `id, parent_id` of a chain: the directory `d` followed by its ancestors
`ps`, each with the next as its parent and the last one a root. -/
def chainRows : DirectoryID → List DirectoryID → List IdParent
  | d, [] => [(d, none)]
  | d, p :: ps => (d, some p) :: chainRows p ps

/-! ## Concrete collaborators and scenario data -/

/-- Modelled from the spec: an in-memory `AppStorage` (section 4.2 of the specification;
the repository's source files hold no implementation of the interface). The state is the
list of stored directories. `IsDirectoryTracked` is membership by id;
`IsDirectoryInfoUpdated` holds when a stored copy of the id is at least as fresh by
`UpdatedAt` and agrees on `DeletedAt`; `CreateDirectory` is an upsert by id;
`DeleteDirectory` removes the id and returns what it removed. -/
def memStore : AppStorage (List Directory) where
  IsDirectoryTracked := fun s id => Except.ok (s.any fun t => t.Id == id)
  IsDirectoryInfoUpdated := fun s d =>
    Except.ok (s.any fun t =>
      t.Id == d.Id && decide (d.UpdatedAt ≤ t.UpdatedAt) && t.DeletedAt == d.DeletedAt)
  CreateDirectory := fun s d => (d :: s.filter (fun t => t.Id != d.Id), Except.ok d)
  DeleteDirectory := fun s id =>
    (s.filter (fun t => t.Id != id), Except.ok (s.filter fun t => t.Id == id))

/-- An `AppStorage` whose every call fails and which never changes state. -/
def failingStore : AppStorage Unit where
  IsDirectoryTracked := fun _ _ => Except.error (GoError.other 1)
  IsDirectoryInfoUpdated := fun _ _ => Except.error (GoError.other 2)
  CreateDirectory := fun s _ => (s, Except.error (GoError.other 3))
  DeleteDirectory := fun s _ => (s, Except.error (GoError.other 4))

/-- A reconciler that counts its calls and never fails. -/
def countingReconciler : Reconciler Nat where
  Reconcile := fun n _ => (n + 1, none)

/-- A read-only client over a fixed authoritative list of directories: `GetDirectory`
is a lookup by id, `GetChildren` lists the ids whose parent is the given id. -/
def listClient (auth : List Directory) : ReadOnlyClient where
  GetDirectory := fun id =>
    match auth.find? (fun d => d.Id == id) with
    | some d => Except.ok { Directory := d }
    | none => Except.error GoError.ErrDirectoryNotFound
  GetChildren := fun id =>
    Except.ok { Directories := (auth.filter fun d => d.Parent == some id).map Directory.Id }

/-- A live root directory with the given id, name and update time. -/
def mkRoot (id : DirectoryID) (name : String) (t : Time) : Directory :=
  { Id := id, Name := name, Metadata := some [], CreatedAt := t, UpdatedAt := t,
    DeletedAt := none, Parent := none }

/-- A live directory with the given id, name, update time and parent. -/
def mkChild (id : DirectoryID) (name : String) (t : Time) (parent : DirectoryID) : Directory :=
  { Id := id, Name := name, Metadata := some [], CreatedAt := t, UpdatedAt := t,
    DeletedAt := none, Parent := some parent }

/-- A controller with base directory `1` over the given store, client data and the
default full-reconcile interval constants of the source. -/
def mkController {σ : Type} (store : AppStorage σ) (auth : List Directory) : controller σ Nat :=
  { c := listClient auth, baseDir := 1, store := store, r := countingReconciler,
    frMinimumInterval := 5, frMaximumInterval := 10, frDuration := 60 }

/-- An event of the given type about a directory, stamped at time `7`. -/
def mkEvent (ty : EventType) (d : Directory) : DirectoryEvent :=
  { Version := APIVersion, Time := 7, Typ := ty, Directory := d }

/-- A world at clock `9` with no calls recorded. -/
def mkWorld {σ : Type} (s : σ) : World σ Nat :=
  { store := s, recon := 0, now := 9, trace := [] }

/-- The root directory of the scenarios: id `1`, named `root`. -/
def rootDir : Directory := mkRoot 1 "root" 1

/-- The child of the scenarios: id `2`, named `test`, under the root. -/
def testDir : Directory := mkChild 2 "test" 2 1

/-- The child of the scenarios after its deletion at time `5`. -/
def testDirDeleted : Directory := { testDir with DeletedAt := some 5 }

/-- The controller of the scenarios: in-memory store, authoritative state root and child. -/
def scenarioController : controller (List Directory) Nat :=
  mkController memStore [rootDir, testDir]

/-- A controller whose store fails on every call. -/
def failingController : controller Unit Nat :=
  mkController failingStore [rootDir, testDir]

/-- A second root, outside the subtree of the scenarios: id `3`, named `other`. -/
def otherRoot : Directory := mkRoot 3 "other" 3

/-- A grandchild of the scenarios: id `4`, named `leaf`, under the child `2`. -/
def leafDir : Directory := mkChild 4 "leaf" 4 2

/-- A directory under the untracked root `3`: id `5`, named `stray`. -/
def strayDir : Directory := mkChild 5 "stray" 5 3

/-- The event sequence of the confinement scenario. -/
def scenarioEvents : List DirectoryEvent :=
  [mkEvent EventType.Create testDir, mkEvent EventType.Create otherRoot,
   mkEvent EventType.Create strayDir, mkEvent EventType.Create leafDir]

/-- Directory `a` of the cascading-delete scenario: id `2` under the root `1`. -/
def dirA : Directory := mkChild 2 "a" 2 1

/-- Directory `b` of the cascading-delete scenario: id `3` under the root `1`. -/
def dirB : Directory := mkChild 3 "b" 3 1

/-- Directory `c` of the cascading-delete scenario: id `4` under `a`. -/
def dirC : Directory := mkChild 4 "c" 4 2

/-- The table of the cascading-delete scenario: root `r`, children `a` and `b`,
grandchild `c` under `a`. -/
def scenarioTable : List Directory := [rootDir, dirA, dirB, dirC]

/-- A writable driver over the scenario table. -/
def scenarioDriver : Driver := { db := scenarioTable, readOnly := false, fastReads := false }

/-- A read-only driver over the scenario table. -/
def readOnlyDriver : Driver := { db := scenarioTable, readOnly := true, fastReads := false }

/-! ## The ticker period (`getRandomTickerDuration`) -/

/-- The value a signed 64-bit integer holds after an operation whose exact result is `x`:
Go's `int64` and `time.Duration` wrap around silently (`int` is taken to be 64 bits wide,
as on 64-bit platforms). -/
def wrapInt64 (x : Int) : Int := (x + 2 ^ 63) % 2 ^ 64 - 2 ^ 63

/-- The largest `int64`, `math.MaxInt64`. -/
def maxInt64 : Int := 2 ^ 63 - 1

/-- The method `getRandomTickerDuration`. `r` is the value `rand.Intn(c.frMaximumInterval)`
returns, a draw with `0 ≤ r < c.frMaximumInterval`; `rand.Intn` panics when its argument
is not positive, which is `none`. The sum is an `int` addition, the product a
`time.Duration` multiplication. -/
def controller.getRandomTickerDuration {σ ρ : Type} (c : controller σ ρ) (r : Int) :
    Option Int :=
  if c.frMaximumInterval ≤ 0 then none
  else some (wrapInt64 (wrapInt64 (c.frMinimumInterval + r) * c.frDuration))

/-- A controller with the default interval constants of the source: `5`, `10` and
`time.Minute` (in nanoseconds). -/
def defaultIntervalController : controller (List Directory) Nat :=
  { mkController memStore [] with frDuration := 60000000000 }

/-- A controller with the default interval bounds `5` and `10` and the unit
`time.Duration(1 << 62)`. -/
def longUnitController : controller (List Directory) Nat :=
  { mkController memStore [] with frDuration := 2 ^ 62 }

/-- An `AppStorage` that answers both queries as the in-memory mirror does and refuses
both mutations, leaving its state as it was. -/
def frozenStore : AppStorage (List Directory) where
  IsDirectoryTracked := memStore.IsDirectoryTracked
  IsDirectoryInfoUpdated := memStore.IsDirectoryInfoUpdated
  CreateDirectory := fun s _ => (s, Except.error (GoError.other 3))
  DeleteDirectory := fun s _ => (s, Except.error (GoError.other 4))

/-- The in-memory mirror, except that `IsDirectoryTracked` fails for the id `99`. -/
def patchyStore : AppStorage (List Directory) where
  IsDirectoryTracked := fun s id =>
    if id = 99 then Except.error (GoError.other 1) else memStore.IsDirectoryTracked s id
  IsDirectoryInfoUpdated := memStore.IsDirectoryInfoUpdated
  CreateDirectory := memStore.CreateDirectory
  DeleteDirectory := memStore.DeleteDirectory

/-- A reconciler that counts its calls and rejects every one of them. -/
def rejectingReconciler : Reconciler Nat where
  Reconcile := fun n _ => (n + 1, some (GoError.other 5))

/-- The controller of the scenarios with the rejecting reconciler. -/
def rejectingController : controller (List Directory) Nat :=
  { scenarioController with r := rejectingReconciler }

/-- The controller of the scenarios over the store that refuses mutations. -/
def frozenController : controller (List Directory) Nat :=
  mkController frozenStore [rootDir, testDir]

/-- The controller of the scenarios over the store whose lookup of `99` fails. -/
def patchyController : controller (List Directory) Nat :=
  mkController patchyStore [rootDir, testDir]

/-- A live directory with id `2` whose parent is the id `99`. -/
def movedDir : Directory := mkChild 2 "test" 6 99

/-! # Properties -/

/-! ## Controller: relevance and persistence -/

theorem persistDirectory_trace {σ ρ : Type} (c : controller σ ρ) (w : World σ ρ)
    (d : Directory) :
    ∃ call rest, (c.persistDirectory w d).1.trace = w.trace ++ call :: rest := by
  unfold controller.persistDirectory
  by_cases hd : d.IsDeleted = true
  · simp only [hd, if_true]
    rcases hres : c.store.DeleteDirectory w.store d.Id with ⟨s, _ | _⟩
    · exact ⟨_, [], rfl⟩
    · exact ⟨_, [_], rfl⟩
  · simp only [hd]
    rcases hres : c.store.CreateDirectory w.store d with ⟨s, _ | _⟩
    · exact ⟨_, [], rfl⟩
    · exact ⟨_, [_], rfl⟩

theorem persistEventDirectory_trace {σ ρ : Type} (c : controller σ ρ) (w : World σ ρ)
    (d : Directory) :
    (c.persistEventDirectory w d).1.trace = (c.persistDirectory w d).1.trace := by
  unfold controller.persistEventDirectory
  rcases hres : c.persistDirectory w d with ⟨w1, _ | _⟩ <;> rfl

theorem persistDirectory_store {σ ρ : Type} (c : controller σ ρ) (w : World σ ρ)
    (d : Directory) :
    (c.persistDirectory w d).1.store
      = if d.IsDeleted then (c.store.DeleteDirectory w.store d.Id).1
        else (c.store.CreateDirectory w.store d).1 := by
  unfold controller.persistDirectory
  by_cases hd : d.IsDeleted = true
  · simp only [hd, if_true]
    rcases hres : c.store.DeleteDirectory w.store d.Id with ⟨s, _ | _⟩ <;> rfl
  · simp only [hd]
    rcases hres : c.store.CreateDirectory w.store d with ⟨s, _ | _⟩ <;> rfl

theorem persistEventDirectory_fst {σ ρ : Type} (c : controller σ ρ) (w : World σ ρ)
    (d : Directory) : (c.persistEventDirectory w d).1 = (c.persistDirectory w d).1 := by
  unfold controller.persistEventDirectory
  rcases hres : c.persistDirectory w d with ⟨w1, _ | _⟩ <;> rfl

theorem persistEventDirectory_snd {σ ρ : Type} (c : controller σ ρ) (w : World σ ρ)
    (d : Directory) :
    (c.persistEventDirectory w d).2
      = (c.persistDirectory w d).2.map (GoError.wrap "error persisting directory") := by
  unfold controller.persistEventDirectory
  rcases hres : c.persistDirectory w d with ⟨w1, _ | _⟩ <;> rfl

theorem persistDirectory_first_call {σ ρ : Type} (c : controller σ ρ) (w : World σ ρ)
    (d : Directory) :
    ∃ rest, (c.persistDirectory w d).1.trace
      = w.trace ++ (if d.IsDeleted = true then Call.storeDeleteDirectory d.Id
          else Call.storeCreateDirectory d) :: rest := by
  unfold controller.persistDirectory
  by_cases hd : d.IsDeleted = true
  · simp only [hd, if_true]
    rcases hres : c.store.DeleteDirectory w.store d.Id with ⟨s, _ | _⟩
    · exact ⟨[], rfl⟩
    · exact ⟨[_], rfl⟩
  · simp only [hd]
    rcases hres : c.store.CreateDirectory w.store d with ⟨s, _ | _⟩
    · exact ⟨[], rfl⟩
    · exact ⟨[_], rfl⟩

theorem isRelevantEvent_of_answers {σ ρ : Type} (c : controller σ ρ) (s : σ)
    (ev : DirectoryEvent)
    (hid : ∃ b, c.store.IsDirectoryTracked s ev.Directory.Id = Except.ok b)
    (hpar : c.store.IsDirectoryTracked s ev.Directory.Id = Except.ok false →
      ev.Typ = EventType.Create → ∀ p, ev.Directory.Parent = some p →
      ∃ b, c.store.IsDirectoryTracked s p = Except.ok b) :
    ∃ b, c.isRelevantEvent s ev = Except.ok b ∧ (b = true ↔ c.Relevant s ev) := by
  obtain ⟨b, hb⟩ := hid
  unfold controller.isRelevantEvent controller.Relevant controller.Tracked
  rw [hb]
  cases b with
  | true => exact ⟨true, by simp⟩
  | false =>
    by_cases hty : ev.Typ = EventType.Create
    · cases hp : ev.Directory.Parent with
      | none => exact ⟨false, by simp [hty]⟩
      | some p =>
        obtain ⟨bp, hbp⟩ := hpar hb hty p hp
        refine ⟨bp, by simp [hty, hbp], ?_⟩
        simp [hty, hbp]
    · exact ⟨false, by simp [hty]⟩

/-- C1. With the tracking lookups that `isRelevantEvent` makes for the event answered by
the store (the lookup of the directory; and the lookup of the parent, which is made only
for a `Create` of an untracked directory that has a parent): `processIncomingEvent` acts
on the event exactly when the directory is tracked, or the event is a `Create` whose
directory has a tracked parent. Acting is calling `persistDirectory` on the event's
directory: the resulting world (store, reconciler, clock, record of calls) is the one
`persistDirectory` leaves, the result is its result with an error wrapped, the store is
the one the store call leaves, and the record of calls grows by that store call first.
In every other case it returns no error and leaves the store, the reconciler and the
record of calls as they were, so it makes no `Reconcile` call. -/
theorem processIncomingEvent_relevance {σ ρ : Type} (c : controller σ ρ) (w : World σ ρ)
    (ev : DirectoryEvent)
    (hid : ∃ b, c.store.IsDirectoryTracked w.store ev.Directory.Id = Except.ok b)
    (hpar : c.store.IsDirectoryTracked w.store ev.Directory.Id = Except.ok false →
      ev.Typ = EventType.Create → ∀ p, ev.Directory.Parent = some p →
      ∃ b, c.store.IsDirectoryTracked w.store p = Except.ok b) :
    (c.Relevant w.store ev →
        (c.processIncomingEvent w ev).1 = (c.persistDirectory w ev.Directory).1 ∧
        (c.processIncomingEvent w ev).2
          = (c.persistDirectory w ev.Directory).2.map
              (GoError.wrap "error persisting directory") ∧
        (c.processIncomingEvent w ev).1.store
          = (if ev.Directory.IsDeleted = true
              then (c.store.DeleteDirectory w.store ev.Directory.Id).1
              else (c.store.CreateDirectory w.store ev.Directory).1) ∧
        ∃ rest, (c.processIncomingEvent w ev).1.trace
          = w.trace ++ (if ev.Directory.IsDeleted = true
              then Call.storeDeleteDirectory ev.Directory.Id
              else Call.storeCreateDirectory ev.Directory) :: rest) ∧
    (¬ c.Relevant w.store ev →
        c.processIncomingEvent w ev = (w, none) ∧
        (c.processIncomingEvent w ev).2 = none ∧
        (c.processIncomingEvent w ev).1.store = w.store ∧
        (c.processIncomingEvent w ev).1.recon = w.recon ∧
        (c.processIncomingEvent w ev).1.trace = w.trace ∧
        (c.processIncomingEvent w ev).1.reconcileCalls = w.reconcileCalls) ∧
    (c.Relevant w.store ev ↔ (c.processIncomingEvent w ev).1.trace ≠ w.trace) := by
  obtain ⟨b, hb, hiff⟩ := isRelevantEvent_of_answers c w.store ev hid hpar
  have hact : c.Relevant w.store ev →
      c.processIncomingEvent w ev = c.persistEventDirectory w ev.Directory := by
    intro hrel
    have : b = true := hiff.2 hrel
    subst this
    unfold controller.processIncomingEvent
    rw [hb]
    rfl
  have hskip : ¬ c.Relevant w.store ev → c.processIncomingEvent w ev = (w, none) := by
    intro hrel
    have : b = false := by
      cases b with
      | true => exact absurd (hiff.1 rfl) hrel
      | false => rfl
    subst this
    unfold controller.processIncomingEvent
    rw [hb]
    rfl
  refine ⟨?_, ?_, ?_, ?_⟩
  · intro hrel
    rw [hact hrel]
    refine ⟨persistEventDirectory_fst c w ev.Directory,
      persistEventDirectory_snd c w ev.Directory, ?_, ?_⟩
    · rw [persistEventDirectory_fst, persistDirectory_store]
    · rw [persistEventDirectory_fst]
      exact persistDirectory_first_call c w ev.Directory
  · intro hrel
    rw [hskip hrel]
    exact ⟨rfl, rfl, rfl, rfl, rfl, rfl⟩
  · intro hrel
    rw [hact hrel, persistEventDirectory_fst]
    obtain ⟨rest, htr⟩ := persistDirectory_first_call c w ev.Directory
    rw [htr]
    intro hcontra
    have := congrArg List.length hcontra
    simp at this
  · intro hne
    by_contra hrel
    exact hne (by rw [hskip hrel])

theorem scenario_root_only_tracked (x : DirectoryID)
    (h : scenarioController.Tracked [rootDir] x) : x = 1 := by
  simp only [controller.Tracked, scenarioController, mkController, memStore, rootDir, mkRoot,
    Except.ok.injEq, List.any_cons, List.any_nil, Bool.or_false, beq_iff_eq] at h
  exact h.symm

/-- Witness for C1. On the in-memory store tracking the root `1`: a `Create` of the
child `2` under the root is acted on (one store call, one `Reconcile`, the child stored);
a `Delete` of the untracked root `3` is dropped. On the store that refuses mutations the
same `Create` returns the store's error wrapped. On the store whose lookup of `99` fails,
an `Update` of the tracked directory `2` with parent `99` is acted on, the parent never
being looked up. -/
theorem processIncomingEvent_relevance_witness :
    ((scenarioController.processIncomingEvent (mkWorld [rootDir])
          (mkEvent EventType.Create testDir)).1
        = (scenarioController.persistDirectory (mkWorld [rootDir]) testDir).1 ∧
      (scenarioController.processIncomingEvent (mkWorld [rootDir])
          (mkEvent EventType.Create testDir)).1.store = [testDir, rootDir] ∧
      (scenarioController.processIncomingEvent (mkWorld [rootDir])
          (mkEvent EventType.Create testDir)).1.recon = 1 ∧
      (scenarioController.processIncomingEvent (mkWorld [rootDir])
          (mkEvent EventType.Create testDir)).1.reconcileCalls = 1 ∧
      (scenarioController.processIncomingEvent (mkWorld [rootDir])
          (mkEvent EventType.Create testDir)).2 = none) ∧
    (scenarioController.processIncomingEvent (mkWorld [rootDir])
        (mkEvent EventType.Delete otherRoot) = (mkWorld [rootDir], none) ∧
      (scenarioController.processIncomingEvent (mkWorld [rootDir])
        (mkEvent EventType.Delete otherRoot)).1.reconcileCalls = 0) ∧
    ((frozenController.processIncomingEvent (mkWorld [rootDir])
          (mkEvent EventType.Create testDir)).2
        = (frozenController.persistDirectory (mkWorld [rootDir]) testDir).2.map
            (GoError.wrap "error persisting directory") ∧
      (frozenController.processIncomingEvent (mkWorld [rootDir])
          (mkEvent EventType.Create testDir)).2
        = some (GoError.wrap "error persisting directory" (GoError.other 3)) ∧
      (frozenController.processIncomingEvent (mkWorld [rootDir])
          (mkEvent EventType.Create testDir)).1.reconcileCalls = 0) ∧
    ((patchyController.processIncomingEvent (mkWorld [rootDir, testDir])
          (mkEvent EventType.Update movedDir)).1
        = (patchyController.persistDirectory (mkWorld [rootDir, testDir]) movedDir).1 ∧
      (patchyController.processIncomingEvent (mkWorld [rootDir, testDir])
          (mkEvent EventType.Update movedDir)).1.store = [movedDir, rootDir]) :=
  ⟨⟨((processIncomingEvent_relevance scenarioController (mkWorld [rootDir])
          (mkEvent EventType.Create testDir) ⟨false, rfl⟩
          (fun _ _ p hp => by
            obtain rfl : 1 = p := Option.some.inj hp
            exact ⟨true, rfl⟩)).1
        (Or.inr ⟨rfl, 1, rfl, rfl⟩)).1,
      rfl, rfl, rfl, rfl⟩,
   ⟨((processIncomingEvent_relevance scenarioController (mkWorld [rootDir])
          (mkEvent EventType.Delete otherRoot) ⟨false, rfl⟩
          (fun _ hty => by cases hty)).2.1
        (by
          rintro (h | ⟨hty, -⟩)
          · have := scenario_root_only_tracked 3 h
            cases this
          · cases hty)).1,
      rfl⟩,
   ⟨((processIncomingEvent_relevance frozenController (mkWorld [rootDir])
          (mkEvent EventType.Create testDir) ⟨false, rfl⟩
          (fun _ _ p hp => by
            obtain rfl : 1 = p := Option.some.inj hp
            exact ⟨true, rfl⟩)).1
        (Or.inr ⟨rfl, 1, rfl, rfl⟩)).2.1,
      rfl, rfl⟩,
   ⟨((processIncomingEvent_relevance patchyController (mkWorld [rootDir, testDir])
          (mkEvent EventType.Update movedDir) ⟨true, rfl⟩
          (fun h => by cases h)).1
        (Or.inl rfl)).1,
      rfl⟩⟩

theorem reconcileCalls_append {σ ρ : Type} (w : World σ ρ) (s : σ) (r : ρ) (t : Time)
    (calls : List Call) :
    World.reconcileCalls { store := s, recon := r, now := t, trace := w.trace ++ calls }
      = w.reconcileCalls + (calls.filter Call.isReconcile).length := by
  simp [World.reconcileCalls]

theorem persistDirectory_deleted_ok {σ ρ : Type} (c : controller σ ρ) (w : World σ ρ)
    (d : Directory) (s : σ) (ds : List Directory) (hd : d.IsDeleted = true)
    (hres : c.store.DeleteDirectory w.store d.Id = (s, Except.ok ds)) :
    c.persistDirectory w d
      = ({ store := s,
           recon := (c.r.Reconcile w.recon
             (⟨APIVersion, w.now, EventType.Delete, d⟩ : DirectoryEvent)).1,
           now := w.now,
           trace := w.trace ++ [Call.storeDeleteDirectory d.Id,
             Call.reconcile (⟨APIVersion, w.now, EventType.Delete, d⟩ : DirectoryEvent)] },
         (c.r.Reconcile w.recon
             (⟨APIVersion, w.now, EventType.Delete, d⟩ : DirectoryEvent)).2) := by
  unfold controller.persistDirectory
  simp only [hd, if_true, hres]

theorem persistDirectory_deleted_error {σ ρ : Type} (c : controller σ ρ) (w : World σ ρ)
    (d : Directory) (s : σ) (err : GoError) (hd : d.IsDeleted = true)
    (hres : c.store.DeleteDirectory w.store d.Id = (s, Except.error err)) :
    c.persistDirectory w d
      = ({ store := s, recon := w.recon, now := w.now,
           trace := w.trace ++ [Call.storeDeleteDirectory d.Id] }, some err) := by
  unfold controller.persistDirectory
  simp only [hd, if_true, hres]

theorem persistDirectory_live_ok {σ ρ : Type} (c : controller σ ρ) (w : World σ ρ)
    (d : Directory) (s : σ) (d1 : Directory) (hd : d.IsDeleted = false)
    (hres : c.store.CreateDirectory w.store d = (s, Except.ok d1)) :
    c.persistDirectory w d
      = ({ store := s,
           recon := (c.r.Reconcile w.recon
             (⟨APIVersion, w.now, EventType.Create, d⟩ : DirectoryEvent)).1,
           now := w.now,
           trace := w.trace ++ [Call.storeCreateDirectory d,
             Call.reconcile (⟨APIVersion, w.now, EventType.Create, d⟩ : DirectoryEvent)] },
         (c.r.Reconcile w.recon
             (⟨APIVersion, w.now, EventType.Create, d⟩ : DirectoryEvent)).2) := by
  unfold controller.persistDirectory
  simp only [hd, hres, Bool.false_eq_true, if_false]

theorem persistDirectory_live_error {σ ρ : Type} (c : controller σ ρ) (w : World σ ρ)
    (d : Directory) (s : σ) (err : GoError) (hd : d.IsDeleted = false)
    (hres : c.store.CreateDirectory w.store d = (s, Except.error err)) :
    c.persistDirectory w d
      = ({ store := s, recon := w.recon, now := w.now,
           trace := w.trace ++ [Call.storeCreateDirectory d] }, some err) := by
  unfold controller.persistDirectory
  simp only [hd, hres, Bool.false_eq_true, if_false]

/-- C2. `persistDirectory d`: for a deleted `d` it calls `AppStorage.DeleteDirectory d.Id`
and, when that call succeeds, `Reconcile` exactly once: the reconciler is run once, from
the state it was in, on a `Delete` event carrying `d`, the API version tag and the clock
time, and what it returns is returned; for a live `d` it does the same with
`AppStorage.CreateDirectory d` and a `Create` event. When the store call fails, the
reconciler is not run (its state and the count of `Reconcile` calls are as before) and
the store's error is returned. In each case the store is left as the store call left
it. -/
theorem persistDirectory_contract {σ ρ : Type} (c : controller σ ρ) (w : World σ ρ)
    (d : Directory) :
    (d.IsDeleted = true →
      (∀ s ds, c.store.DeleteDirectory w.store d.Id = (s, Except.ok ds) →
        ∃ ev : DirectoryEvent,
          ev.Typ = EventType.Delete ∧ ev.Directory = d ∧ ev.Version = APIVersion ∧
          ev.Time = w.now ∧
          (c.persistDirectory w d).1.trace
            = w.trace ++ [Call.storeDeleteDirectory d.Id, Call.reconcile ev] ∧
          (c.persistDirectory w d).1.reconcileCalls = w.reconcileCalls + 1 ∧
          (c.persistDirectory w d).1.store = s ∧
          (c.persistDirectory w d).1.recon = (c.r.Reconcile w.recon ev).1 ∧
          (c.persistDirectory w d).1.now = w.now ∧
          (c.persistDirectory w d).2 = (c.r.Reconcile w.recon ev).2) ∧
      (∀ s err, c.store.DeleteDirectory w.store d.Id = (s, Except.error err) →
          (c.persistDirectory w d).2 = some err ∧
          (c.persistDirectory w d).1.trace = w.trace ++ [Call.storeDeleteDirectory d.Id] ∧
          (c.persistDirectory w d).1.reconcileCalls = w.reconcileCalls ∧
          (c.persistDirectory w d).1.store = s ∧
          (c.persistDirectory w d).1.recon = w.recon ∧
          (c.persistDirectory w d).1.now = w.now)) ∧
    (d.IsDeleted = false →
      (∀ s d1, c.store.CreateDirectory w.store d = (s, Except.ok d1) →
        ∃ ev : DirectoryEvent,
          ev.Typ = EventType.Create ∧ ev.Directory = d ∧ ev.Version = APIVersion ∧
          ev.Time = w.now ∧
          (c.persistDirectory w d).1.trace
            = w.trace ++ [Call.storeCreateDirectory d, Call.reconcile ev] ∧
          (c.persistDirectory w d).1.reconcileCalls = w.reconcileCalls + 1 ∧
          (c.persistDirectory w d).1.store = s ∧
          (c.persistDirectory w d).1.recon = (c.r.Reconcile w.recon ev).1 ∧
          (c.persistDirectory w d).1.now = w.now ∧
          (c.persistDirectory w d).2 = (c.r.Reconcile w.recon ev).2) ∧
      (∀ s err, c.store.CreateDirectory w.store d = (s, Except.error err) →
          (c.persistDirectory w d).2 = some err ∧
          (c.persistDirectory w d).1.trace = w.trace ++ [Call.storeCreateDirectory d] ∧
          (c.persistDirectory w d).1.reconcileCalls = w.reconcileCalls ∧
          (c.persistDirectory w d).1.store = s ∧
          (c.persistDirectory w d).1.recon = w.recon ∧
          (c.persistDirectory w d).1.now = w.now)) := by
  refine ⟨fun hd => ⟨?_, ?_⟩, fun hd => ⟨?_, ?_⟩⟩
  · intro s ds hres
    refine ⟨{ Version := APIVersion, Time := w.now, Typ := EventType.Delete, Directory := d },
      rfl, rfl, rfl, rfl, ?_⟩
    rw [persistDirectory_deleted_ok c w d s ds hd hres]
    exact ⟨rfl, by rw [reconcileCalls_append]; rfl, rfl, rfl, rfl, rfl⟩
  · intro s err hres
    rw [persistDirectory_deleted_error c w d s err hd hres]
    exact ⟨rfl, rfl, by rw [reconcileCalls_append]; rfl, rfl, rfl, rfl⟩
  · intro s d1 hres
    refine ⟨{ Version := APIVersion, Time := w.now, Typ := EventType.Create, Directory := d },
      rfl, rfl, rfl, rfl, ?_⟩
    rw [persistDirectory_live_ok c w d s d1 hd hres]
    exact ⟨rfl, by rw [reconcileCalls_append]; rfl, rfl, rfl, rfl, rfl⟩
  · intro s err hres
    rw [persistDirectory_live_error c w d s err hd hres]
    exact ⟨rfl, rfl, by rw [reconcileCalls_append]; rfl, rfl, rfl, rfl⟩

/-- Witness for C2. On the in-memory store, persisting the deleted child makes one
`Delete` reconcile call: the counting reconciler goes from `0` to `1` and the child
leaves the store. With the rejecting reconciler, persisting the live child runs the
reconciler once and returns its error. On the store that refuses mutations the
reconciler stays at `0` and the store's error is returned. -/
theorem persistDirectory_contract_witness :
    ((∃ ev : DirectoryEvent,
      ev.Typ = EventType.Delete ∧ ev.Directory = testDirDeleted ∧ ev.Version = APIVersion ∧
      ev.Time = (mkWorld [rootDir, testDir]).now ∧
      (scenarioController.persistDirectory (mkWorld [rootDir, testDir]) testDirDeleted).1.trace
        = (mkWorld [rootDir, testDir]).trace
            ++ [Call.storeDeleteDirectory testDirDeleted.Id, Call.reconcile ev] ∧
      (scenarioController.persistDirectory (mkWorld [rootDir, testDir])
          testDirDeleted).1.reconcileCalls
        = (mkWorld [rootDir, testDir]).reconcileCalls + 1 ∧
      (scenarioController.persistDirectory (mkWorld [rootDir, testDir]) testDirDeleted).1.store
        = [rootDir] ∧
      (scenarioController.persistDirectory (mkWorld [rootDir, testDir]) testDirDeleted).1.recon
        = (scenarioController.r.Reconcile (mkWorld [rootDir, testDir]).recon ev).1 ∧
      (scenarioController.persistDirectory (mkWorld [rootDir, testDir]) testDirDeleted).1.now
        = (mkWorld [rootDir, testDir]).now ∧
      (scenarioController.persistDirectory (mkWorld [rootDir, testDir]) testDirDeleted).2
        = (scenarioController.r.Reconcile (mkWorld [rootDir, testDir]).recon ev).2) ∧
     (scenarioController.persistDirectory (mkWorld [rootDir, testDir]) testDirDeleted).1.recon
        = 1 ∧
     (scenarioController.persistDirectory (mkWorld [rootDir, testDir]) testDirDeleted).2
        = none) ∧
    ((∃ ev : DirectoryEvent,
      ev.Typ = EventType.Create ∧ ev.Directory = testDir ∧ ev.Version = APIVersion ∧
      ev.Time = (mkWorld [rootDir]).now ∧
      (rejectingController.persistDirectory (mkWorld [rootDir]) testDir).1.trace
        = (mkWorld [rootDir]).trace ++ [Call.storeCreateDirectory testDir, Call.reconcile ev] ∧
      (rejectingController.persistDirectory (mkWorld [rootDir]) testDir).1.reconcileCalls
        = (mkWorld [rootDir]).reconcileCalls + 1 ∧
      (rejectingController.persistDirectory (mkWorld [rootDir]) testDir).1.store
        = [testDir, rootDir] ∧
      (rejectingController.persistDirectory (mkWorld [rootDir]) testDir).1.recon
        = (rejectingController.r.Reconcile (mkWorld [rootDir]).recon ev).1 ∧
      (rejectingController.persistDirectory (mkWorld [rootDir]) testDir).1.now
        = (mkWorld [rootDir]).now ∧
      (rejectingController.persistDirectory (mkWorld [rootDir]) testDir).2
        = (rejectingController.r.Reconcile (mkWorld [rootDir]).recon ev).2) ∧
     (rejectingController.persistDirectory (mkWorld [rootDir]) testDir).1.recon = 1 ∧
     (rejectingController.persistDirectory (mkWorld [rootDir]) testDir).2
        = some (GoError.other 5)) ∧
    ((frozenController.persistDirectory (mkWorld [rootDir]) testDir).2
        = some (GoError.other 3) ∧
      (frozenController.persistDirectory (mkWorld [rootDir]) testDir).1.trace
        = (mkWorld [rootDir]).trace ++ [Call.storeCreateDirectory testDir] ∧
      (frozenController.persistDirectory (mkWorld [rootDir]) testDir).1.reconcileCalls
        = (mkWorld [rootDir]).reconcileCalls ∧
      (frozenController.persistDirectory (mkWorld [rootDir]) testDir).1.store = [rootDir] ∧
      (frozenController.persistDirectory (mkWorld [rootDir]) testDir).1.recon
        = (mkWorld [rootDir]).recon ∧
      (frozenController.persistDirectory (mkWorld [rootDir]) testDir).1.now
        = (mkWorld [rootDir]).now) :=
  ⟨⟨((persistDirectory_contract scenarioController (mkWorld [rootDir, testDir])
        testDirDeleted).1 rfl).1 [rootDir] [testDir] rfl, rfl, rfl⟩,
   ⟨((persistDirectory_contract rejectingController (mkWorld [rootDir]) testDir).2 rfl).1
      [testDir, rootDir] testDir rfl, rfl, rfl⟩,
   ((persistDirectory_contract frozenController (mkWorld [rootDir]) testDir).2 rfl).2
      [rootDir] (GoError.other 3) rfl⟩

/-! ## Controller: events bypass the freshness check -/

theorem processIncomingEvent_tracked_live {σ ρ : Type} (c : controller σ ρ) (w : World σ ρ)
    (ev : DirectoryEvent) (htracked : c.Tracked w.store ev.Directory.Id)
    (hlive : ev.Directory.IsDeleted = false) (s : σ) (d1 : Directory)
    (hcreate : c.store.CreateDirectory w.store ev.Directory = (s, Except.ok d1)) :
    (c.processIncomingEvent w ev).1.reconcileCalls = w.reconcileCalls + 1 := by
  have hrel : c.isRelevantEvent w.store ev = Except.ok true := by
    unfold controller.isRelevantEvent
    unfold controller.Tracked at htracked
    rw [htracked]
    rfl
  unfold controller.processIncomingEvent
  rw [hrel]
  simp only [Bool.not_true, Bool.false_eq_true, if_false]
  rw [persistEventDirectory_fst, persistDirectory_live_ok c w ev.Directory s d1 hlive hcreate,
    reconcileCalls_append]
  rfl

/-- C3 (the code at the failing input). The child `2` is tracked and its stored copy is
current (`IsDirectoryInfoUpdated` answers true), yet an `Update` event for it makes
`processIncomingEvent` call `CreateDirectory` and `Reconcile`; and replaying one `Create`
event twice reconciles twice. -/
theorem processIncomingEvent_reconciles_current_copy :
    scenarioController.store.IsDirectoryInfoUpdated [rootDir, testDir] testDir
        = Except.ok true ∧
    (scenarioController.processIncomingEvent (mkWorld [rootDir, testDir])
        (mkEvent EventType.Update testDir)).1.trace
      = [Call.storeCreateDirectory testDir,
         Call.reconcile
           { Version := APIVersion, Time := 9, Typ := EventType.Create, Directory := testDir }] ∧
    (scenarioController.processIncomingEvent (mkWorld [rootDir, testDir])
        (mkEvent EventType.Update testDir)).1.reconcileCalls = 1 ∧
    scenarioController.store.IsDirectoryInfoUpdated
        (scenarioController.processIncomingEvent (mkWorld [rootDir])
          (mkEvent EventType.Create testDir)).1.store testDir = Except.ok true ∧
    (scenarioController.processEvents (mkWorld [rootDir])
        [mkEvent EventType.Create testDir, mkEvent EventType.Create testDir]).1.reconcileCalls
      = 2 := by
  refine ⟨rfl, rfl, rfl, rfl, rfl⟩

/-! ## Controller: the full-subtree reconcile -/

theorem persistIfUpToDate_current {σ ρ : Type} (c : controller σ ρ) (w : World σ ρ)
    (dir : DirectoryID)
    (h : ∃ fd, c.c.GetDirectory dir = Except.ok fd ∧
      c.store.IsDirectoryInfoUpdated w.store fd.Directory = Except.ok true) :
    c.persistIfUpToDate w dir = (w, none) := by
  obtain ⟨fd, hget, hup⟩ := h
  unfold controller.persistIfUpToDate
  rw [hget]
  simp only [hup, if_true]

theorem persistSubdirs_current {σ ρ : Type} (c : controller σ ρ) (w : World σ ρ)
    (subdirs : List DirectoryID)
    (h : ∀ id ∈ subdirs, ∃ fd, c.c.GetDirectory id = Except.ok fd ∧
      c.store.IsDirectoryInfoUpdated w.store fd.Directory = Except.ok true) :
    c.persistSubdirs w subdirs = (w, none) := by
  induction subdirs with
  | nil => rfl
  | cons subdir rest ih =>
    unfold controller.persistSubdirs
    rw [persistIfUpToDate_current c w subdir (h subdir (List.mem_cons_self _ _))]
    exact ih (fun id hid => h id (List.mem_cons_of_mem _ hid))

/-- C4. When the store reports `baseDir` and every id returned by the client's
`GetChildren baseDir` up to date (the fetched directory makes `IsDirectoryInfoUpdated`
answer true), `initializeDirectories` returns no error and leaves the world as it was:
no `Reconcile` call, no `AppStorage.CreateDirectory` or `DeleteDirectory` call, the
store state unchanged. -/
theorem initializeDirectories_idempotent {σ ρ : Type} (c : controller σ ρ) (w : World σ ρ)
    (subdirs : DirectoryList)
    (hbase : ∃ fd, c.c.GetDirectory c.baseDir = Except.ok fd ∧
      c.store.IsDirectoryInfoUpdated w.store fd.Directory = Except.ok true)
    (hchildren : c.c.GetChildren c.baseDir = Except.ok subdirs)
    (hsub : ∀ id ∈ subdirs.Directories, ∃ fd, c.c.GetDirectory id = Except.ok fd ∧
      c.store.IsDirectoryInfoUpdated w.store fd.Directory = Except.ok true) :
    c.initializeDirectories w = (w, none) ∧
    (c.initializeDirectories w).1.trace = w.trace ∧
    (c.initializeDirectories w).1.reconcileCalls = w.reconcileCalls := by
  have hrun : c.initializeDirectories w = (w, none) := by
    unfold controller.initializeDirectories
    rw [persistIfUpToDate_current c w c.baseDir hbase]
    simp only [hchildren]
    exact persistSubdirs_current c w subdirs.Directories hsub
  exact ⟨hrun, by rw [hrun], by rw [hrun]⟩

/-- Witness for C4: the scenario of the integration test. A first full reconcile from
the empty store reconciles root and child (two calls); the second one, run on the world
the first left behind, changes nothing. -/
theorem initializeDirectories_idempotent_witness :
    (scenarioController.initializeDirectories (mkWorld [])).1.reconcileCalls = 2 ∧
    (scenarioController.initializeDirectories
        (scenarioController.initializeDirectories (mkWorld [])).1
      = ((scenarioController.initializeDirectories (mkWorld [])).1, none) ∧
     (scenarioController.initializeDirectories
        (scenarioController.initializeDirectories (mkWorld [])).1).1.trace
      = (scenarioController.initializeDirectories (mkWorld [])).1.trace ∧
     (scenarioController.initializeDirectories
        (scenarioController.initializeDirectories (mkWorld [])).1).1.reconcileCalls
      = (scenarioController.initializeDirectories (mkWorld [])).1.reconcileCalls) :=
  ⟨rfl,
   initializeDirectories_idempotent scenarioController
     (scenarioController.initializeDirectories (mkWorld [])).1
     { Directories := [2] }
     ⟨{ Directory := rootDir }, rfl, rfl⟩
     rfl
     (fun id hid => by
        obtain rfl : id = 2 := by simpa using hid
        exact ⟨{ Directory := testDir }, rfl, rfl⟩)⟩

/-! ## Controller: subtree confinement -/

theorem isRelevantEvent_true {σ ρ : Type} (c : controller σ ρ) (s : σ) (ev : DirectoryEvent)
    (h : c.isRelevantEvent s ev = Except.ok true) : c.Relevant s ev := by
  unfold controller.isRelevantEvent at h
  unfold controller.Relevant controller.Tracked
  cases hid : c.store.IsDirectoryTracked s ev.Directory.Id with
  | error err => rw [hid] at h; cases h
  | ok b =>
    rw [hid] at h
    cases b with
    | true => exact Or.inl rfl
    | false =>
      right
      by_cases hty : ev.Typ = EventType.Create
      · refine ⟨hty, ?_⟩
        cases hp : ev.Directory.Parent with
        | none => simp [hty, hp] at h
        | some p =>
          refine ⟨p, rfl, ?_⟩
          cases hpt : c.store.IsDirectoryTracked s p with
          | error err => simp [hty, hp, hpt] at h
          | ok bp =>
            simp [hty, hp, hpt] at h
            rw [h]
      · simp [hty] at h

theorem persistEventDirectory_store {σ ρ : Type} (c : controller σ ρ) (w : World σ ρ)
    (d : Directory) :
    (c.persistEventDirectory w d).1.store = (c.persistDirectory w d).1.store := by
  unfold controller.persistEventDirectory
  rcases hres : c.persistDirectory w d with ⟨w1, _ | _⟩ <;> rfl

theorem processIncomingEvent_tracked {σ ρ : Type} (c : controller σ ρ)
    (laws : c.store.Lawful) (w : World σ ρ) (ev : DirectoryEvent) (x : DirectoryID)
    (h : c.Tracked (c.processIncomingEvent w ev).1.store x) :
    c.Tracked w.store x ∨
      (ev.Typ = EventType.Create ∧ ev.Directory.Id = x ∧
        ∃ p, ev.Directory.Parent = some p ∧ c.Tracked w.store p) := by
  unfold controller.processIncomingEvent at h
  cases hrel : c.isRelevantEvent w.store ev with
  | error err => rw [hrel] at h; exact Or.inl h
  | ok b =>
    rw [hrel] at h
    cases b with
    | false => exact Or.inl h
    | true =>
      have hrelevant := isRelevantEvent_true c w.store ev hrel
      simp only [Bool.not_true, Bool.false_eq_true, if_false] at h
      unfold controller.Tracked at h
      rw [persistEventDirectory_store, persistDirectory_store] at h
      by_cases hd : ev.Directory.IsDeleted = true
      · rw [if_pos hd] at h
        exact Or.inl (laws.delete_tracks _ _ _ h)
      · rw [if_neg hd] at h
        rcases laws.create_tracks _ _ _ h with hx | hx
        · rcases hrelevant with ht | ⟨hty, p, hp, hpt⟩
          · left
            rw [hx]
            exact ht
          · exact Or.inr ⟨hty, hx.symm, p, hp, hpt⟩
        · exact Or.inl hx

theorem InSubtree.mono {base : DirectoryID} {evs evs2 : List DirectoryEvent}
    (hsub : ∀ ev ∈ evs, ev ∈ evs2) {x : DirectoryID} (h : InSubtree base evs x) :
    InSubtree base evs2 x := by
  induction h with
  | root => exact InSubtree.root
  | child ev p hmem hty hp _ ih => exact InSubtree.child ev p (hsub ev hmem) hty hp ih

theorem processEvents_tracked {σ ρ : Type} (c : controller σ ρ) (laws : c.store.Lawful)
    (evs : List DirectoryEvent) :
    ∀ (w : World σ ρ) (x : DirectoryID), c.Tracked (c.processEvents w evs).1.store x →
      c.Tracked w.store x ∨
        ∃ pre ev post p, evs = pre ++ ev :: post ∧ ev.Typ = EventType.Create ∧
          ev.Directory.Id = x ∧ ev.Directory.Parent = some p ∧
          (c.processEvents w pre).2 = none ∧
          c.Tracked (c.processEvents w pre).1.store p := by
  induction evs with
  | nil => intro w x h; exact Or.inl h
  | cons ev rest ih =>
    intro w x h
    have hstep := processIncomingEvent_tracked c laws w ev x
    unfold controller.processEvents at h
    rcases hres : c.processIncomingEvent w ev with ⟨w1, _ | err⟩
    · rw [hres] at h hstep
      simp only at h
      rcases ih w1 x h with h1 | ⟨pre, ev2, post, p, hsplit, hty, hid, hp, hok, hpt⟩
      · rcases hstep h1 with h0 | ⟨hty, hid, p, hp, hpt⟩
        · exact Or.inl h0
        · exact Or.inr ⟨[], ev, rest, p, rfl, hty, hid, hp, rfl, hpt⟩
      · refine Or.inr ⟨ev :: pre, ev2, post, p, by rw [hsplit]; rfl, hty, hid, hp, ?_, ?_⟩
        · unfold controller.processEvents
          rw [hres]
          exact hok
        · unfold controller.processEvents
          rw [hres]
          exact hpt
    · rw [hres] at h hstep
      simp only at h
      rcases hstep h with h0 | ⟨hty, hid, p, hp, hpt⟩
      · exact Or.inl h0
      · exact Or.inr ⟨[], ev, rest, p, rfl, hty, hid, hp, rfl, hpt⟩

theorem processEvents_inSubtree {σ ρ : Type} (c : controller σ ρ) (laws : c.store.Lawful)
    (all : List DirectoryEvent) (evs : List DirectoryEvent) :
    ∀ (w : World σ ρ), (∀ ev ∈ evs, ev ∈ all) →
      (∀ x, c.Tracked w.store x → InSubtree c.baseDir all x) →
      ∀ x, c.Tracked (c.processEvents w evs).1.store x → InSubtree c.baseDir all x := by
  induction evs with
  | nil => intro w _ h0 x h; exact h0 x h
  | cons ev rest ih =>
    intro w hsub h0 x h
    have hstep : ∀ y, c.Tracked (c.processIncomingEvent w ev).1.store y →
        InSubtree c.baseDir all y := by
      intro y hy
      rcases processIncomingEvent_tracked c laws w ev y hy with h1 | ⟨hty, hid, p, hp, hpt⟩
      · exact h0 y h1
      · rw [← hid]
        exact InSubtree.child ev p (hsub ev (List.mem_cons_self _ _)) hty hp (h0 p hpt)
    unfold controller.processEvents at h
    rcases hres : c.processIncomingEvent w ev with ⟨w1, _ | err⟩
    · rw [hres] at h hstep
      simp only at h
      exact ih w1 (fun e he => hsub e (List.mem_cons_of_mem _ he)) hstep x h
    · rw [hres] at h hstep
      simp only at h
      exact hstep x h

/-- C5. Subtree confinement. Over a store that starts tracking no id that the mutation
did not create, and from a store state that tracks at most `baseDir`: after the events
`evs` have been handled by `processIncomingEvent` in order, every tracked directory is in
the subtree of `baseDir` as the `Create` events describe it (its chain of parents leads
to `baseDir`), and it is `baseDir` or the directory of a `Create` event of the sequence
whose parent was tracked when that event was handled. -/
theorem subtree_confinement {σ ρ : Type} (c : controller σ ρ) (laws : c.store.Lawful)
    (w : World σ ρ) (evs : List DirectoryEvent)
    (hstart : ∀ x, c.Tracked w.store x → x = c.baseDir) (x : DirectoryID)
    (hx : c.Tracked (c.processEvents w evs).1.store x) :
    InSubtree c.baseDir evs x ∧
    (x = c.baseDir ∨
      ∃ pre ev post p, evs = pre ++ ev :: post ∧ ev.Typ = EventType.Create ∧
        ev.Directory.Id = x ∧ ev.Directory.Parent = some p ∧
        (c.processEvents w pre).2 = none ∧
        c.Tracked (c.processEvents w pre).1.store p) := by
  constructor
  · refine processEvents_inSubtree c laws evs evs w (fun _ h => h) ?_ x hx
    intro y hy
    rw [hstart y hy]
    exact InSubtree.root
  · rcases processEvents_tracked c laws evs w x hx with h0 | h1
    · exact Or.inl (hstart x h0)
    · exact Or.inr h1

theorem memStore_lawful : memStore.Lawful where
  create_tracks := by
    intro s d x h
    simp only [memStore, Except.ok.injEq, List.any_cons, Bool.or_eq_true, beq_iff_eq,
      List.any_eq_true, List.mem_filter, bne_iff_ne, ne_eq] at h ⊢
    rcases h with h | ⟨t, ⟨ht, _⟩, hx⟩
    · exact Or.inl h.symm
    · exact Or.inr ⟨t, ht, hx⟩
  delete_tracks := by
    intro s id x h
    simp only [memStore, Except.ok.injEq, List.any_eq_true, List.mem_filter, bne_iff_ne,
      ne_eq, beq_iff_eq] at h ⊢
    obtain ⟨t, ⟨ht, _⟩, hx⟩ := h
    exact ⟨t, ht, hx⟩

/-- Witness for C5: from a store tracking the root only, the events create the child,
a second root, a directory under that second root, and a grandchild; the grandchild `4`
ends up tracked, and it is confined to the subtree of the root. -/
theorem subtree_confinement_witness :
    scenarioController.Tracked
        (scenarioController.processEvents (mkWorld [rootDir]) scenarioEvents).1.store 4 ∧
    (InSubtree scenarioController.baseDir scenarioEvents 4 ∧
      (4 = scenarioController.baseDir ∨
        ∃ pre ev post p, scenarioEvents = pre ++ ev :: post ∧ ev.Typ = EventType.Create ∧
          ev.Directory.Id = 4 ∧ ev.Directory.Parent = some p ∧
          (scenarioController.processEvents (mkWorld [rootDir]) pre).2 = none ∧
          scenarioController.Tracked
            (scenarioController.processEvents (mkWorld [rootDir]) pre).1.store p)) :=
  ⟨rfl,
   subtree_confinement scenarioController memStore_lawful (mkWorld [rootDir]) scenarioEvents
     (fun x hx => by
        simp only [controller.Tracked, scenarioController, mkController, memStore, mkWorld,
          rootDir, mkRoot, Except.ok.injEq, List.any_cons, List.any_nil, Bool.or_false,
          beq_iff_eq] at hx
        exact hx.symm)
     4 rfl⟩

/-! ## Driver: the recursive queries -/

theorem recursiveUnion_zero {α : Type} [DecidableEq α] (step : List α → List α)
    (acc work : List α) : recursiveUnion step 0 acc work = acc := rfl

theorem recursiveUnion_succ {α : Type} [DecidableEq α] (step : List α → List α)
    (fuel : Nat) (acc work : List α) :
    recursiveUnion step (fuel + 1) acc work
      = if ((step work).dedup).filter (fun x => decide (x ∉ acc)) = [] then acc
        else recursiveUnion step fuel
          (acc ++ ((step work).dedup).filter (fun x => decide (x ∉ acc)))
          (((step work).dedup).filter (fun x => decide (x ∉ acc))) := rfl

theorem mem_fresh {α : Type} [DecidableEq α] (out acc : List α) (y : α) :
    y ∈ (out.dedup).filter (fun x => decide (x ∉ acc)) ↔ y ∈ out ∧ y ∉ acc := by
  simp [List.mem_filter, List.mem_dedup]

theorem recursiveUnion_acc_subset {α : Type} [DecidableEq α] (step : List α → List α) :
    ∀ (fuel : Nat) (acc work : List α), ∀ x ∈ acc, x ∈ recursiveUnion step fuel acc work := by
  intro fuel
  induction fuel with
  | zero => intro acc work x hx; exact hx
  | succ fuel ih =>
    intro acc work x hx
    rw [recursiveUnion_succ]
    split
    · exact hx
    · exact ih _ _ x (List.mem_append_left _ hx)

theorem recursiveUnion_sound {α : Type} [DecidableEq α] (step : List α → List α)
    (P : α → Prop) (hstep : ∀ work, (∀ x ∈ work, P x) → ∀ y ∈ step work, P y) :
    ∀ (fuel : Nat) (acc work : List α), (∀ x ∈ acc, P x) → (∀ x ∈ work, P x) →
      ∀ y ∈ recursiveUnion step fuel acc work, P y := by
  intro fuel
  induction fuel with
  | zero => intro acc work hacc _ y hy; exact hacc y hy
  | succ fuel ih =>
    intro acc work hacc hwork y hy
    rw [recursiveUnion_succ] at hy
    split at hy
    · exact hacc y hy
    · have hfresh : ∀ x ∈ ((step work).dedup).filter (fun x => decide (x ∉ acc)), P x := by
        intro x hx
        exact hstep work hwork x ((mem_fresh _ _ _).1 hx).1
      refine ih _ _ ?_ hfresh y hy
      intro x hx
      rcases List.mem_append.1 hx with h | h
      · exact hacc x h
      · exact hfresh x h

theorem recursiveUnion_closed {α : Type} [DecidableEq α] (step : List α → List α)
    (R : α → α → Prop) (U : List α)
    (hjoin : ∀ work y, y ∈ step work ↔ ∃ x ∈ work, R x y)
    (hU : ∀ x y, R x y → y ∈ U) :
    ∀ (fuel : Nat) (acc work : List α), acc.Nodup → (∀ x ∈ acc, x ∈ U) →
      (∀ x ∈ acc, x ∉ work → ∀ y, R x y → y ∈ acc) →
      U.length ≤ acc.length + fuel →
      ∀ x ∈ recursiveUnion step fuel acc work, ∀ y, R x y →
        y ∈ recursiveUnion step fuel acc work := by
  intro fuel
  induction fuel with
  | zero =>
    intro acc work hnd hsub _ hlen x _ y hxy
    rw [recursiveUnion_zero]
    have hperm : acc.Perm U :=
      (List.subperm_of_subset hnd hsub).perm_of_length_le (by simpa using hlen)
    exact hperm.symm.subset (hU x y hxy)
  | succ fuel ih =>
    intro acc work hnd hsub hinv hlen
    rw [recursiveUnion_succ]
    split
    · rename_i hfresh
      intro x hx y hxy
      by_cases hxw : x ∈ work
      · by_contra hy
        have : y ∈ ((step work).dedup).filter (fun x => decide (x ∉ acc)) :=
          (mem_fresh _ _ _).2 ⟨(hjoin work y).2 ⟨x, hxw, hxy⟩, hy⟩
        rw [hfresh] at this
        cases this
      · exact hinv x hx hxw y hxy
    · rename_i hfresh
      apply ih
      · refine List.Nodup.append hnd ((List.nodup_dedup _).filter _) ?_
        intro a ha hb
        exact ((mem_fresh _ _ _).1 hb).2 ha
      · intro x hx
        rcases List.mem_append.1 hx with h | h
        · exact hsub x h
        · obtain ⟨x0, _, hx0⟩ := (hjoin work x).1 ((mem_fresh _ _ _).1 h).1
          exact hU x0 x hx0
      · intro x hx hxf y hxy
        rcases List.mem_append.1 hx with h | h
        · by_cases hxw : x ∈ work
          · by_cases hy : y ∈ acc
            · exact List.mem_append_left _ hy
            · exact List.mem_append_right _
                ((mem_fresh _ _ _).2 ⟨(hjoin work y).2 ⟨x, hxw, hxy⟩, hy⟩)
          · exact List.mem_append_left _ (hinv x h hxw y hxy)
        · exact absurd h hxf
      · have hpos : 0 < (((step work).dedup).filter (fun x => decide (x ∉ acc))).length :=
          List.length_pos.2 hfresh
        rw [List.length_append]
        omega

/-! ## Driver: the cascading soft delete -/

theorem mem_deleteSeed (db : List Directory) (id : DirectoryID) (y : IdParent) :
    y ∈ deleteSeed db id ↔
      ∃ d ∈ db, d.Id = id ∧ d.DeletedAt = none ∧ d.Parent ≠ none ∧ y = d.idParent := by
  unfold deleteSeed
  simp only [List.mem_map, List.mem_filter, Bool.and_eq_true, beq_iff_eq,
    Option.isNone_iff_eq_none, Option.isSome_iff_ne_none]
  constructor
  · rintro ⟨d, ⟨hd, ⟨hid, hlive⟩, hpar⟩, rfl⟩
    exact ⟨d, hd, hid, hlive, hpar, rfl⟩
  · rintro ⟨d, hd, hid, hlive, hpar, rfl⟩
    exact ⟨d, ⟨hd, ⟨hid, hlive⟩, hpar⟩, rfl⟩

theorem mem_deleteStep (db : List Directory) (work : List IdParent) (y : IdParent) :
    y ∈ deleteStep db work ↔ ∃ x ∈ work, DeleteRel db x y := by
  unfold deleteStep DeleteRel
  simp only [List.mem_map, List.mem_filter, Bool.and_eq_true, Option.isNone_iff_eq_none,
    List.any_eq_true, beq_iff_eq]
  constructor
  · rintro ⟨d, ⟨hd, hlive, x, hx, hpar⟩, rfl⟩
    exact ⟨x, hx, d, hd, hlive, hpar, rfl⟩
  · rintro ⟨x, hx, d, hd, hlive, hpar, rfl⟩
    exact ⟨d, ⟨hd, hlive, x, hx, hpar⟩, rfl⟩

theorem deleteChildren_sound (db : List Directory) (id : DirectoryID) :
    ∀ y ∈ deleteChildren db id,
      ∃ d ∈ db, d.DeletedAt = none ∧ y = d.idParent ∧ LiveDescendant db id d.Id := by
  unfold deleteChildren withRecursive
  have hseed : ∀ x ∈ (deleteSeed db id).dedup,
      ∃ d ∈ db, d.DeletedAt = none ∧ x = d.idParent ∧ LiveDescendant db id d.Id := by
    intro x hx
    obtain ⟨d, hd, hid, hlive, _, rfl⟩ := (mem_deleteSeed db id x).1 (List.mem_dedup.1 hx)
    refine ⟨d, hd, hlive, rfl, ?_⟩
    rw [hid]
    exact LiveDescendant.self
  refine recursiveUnion_sound (deleteStep db) _ ?_ _ _ _ hseed hseed
  intro work hwork y hy
  obtain ⟨x, hx, d, hd, hlive, hpar, rfl⟩ := (mem_deleteStep db work y).1 hy
  obtain ⟨d0, _, _, rfl, hdesc⟩ := hwork x hx
  exact ⟨d, hd, hlive, rfl, LiveDescendant.child d d0.Id hdesc hd hlive hpar⟩

theorem deleteChildren_closed (db : List Directory) (id : DirectoryID) :
    ∀ x ∈ deleteChildren db id, ∀ y, DeleteRel db x y → y ∈ deleteChildren db id := by
  unfold deleteChildren withRecursive
  refine recursiveUnion_closed (deleteStep db) (DeleteRel db) (db.map Directory.idParent)
    (mem_deleteStep db) ?_ _ _ _ (List.nodup_dedup _) ?_ ?_ ?_
  · rintro x y ⟨d, hd, _, _, rfl⟩
    exact List.mem_map_of_mem _ hd
  · intro x hx
    obtain ⟨d, hd, _, _, _, rfl⟩ := (mem_deleteSeed db id x).1 (List.mem_dedup.1 hx)
    exact List.mem_map_of_mem _ hd
  · intro x hx hnx
    exact absurd hx hnx
  · simp

theorem deleteChildren_seed (db : List Directory) (id : DirectoryID) :
    ∀ y ∈ deleteSeed db id, y ∈ deleteChildren db id := by
  intro y hy
  unfold deleteChildren withRecursive
  exact recursiveUnion_acc_subset _ _ _ _ y (List.mem_dedup.2 hy)

theorem mem_deleteChildren_ids (db : List Directory) (id : DirectoryID)
    (hseed : LiveNonRoot db id) (x : DirectoryID) :
    x ∈ (deleteChildren db id).map Prod.fst ↔ LiveDescendant db id x := by
  constructor
  · intro hx
    obtain ⟨y, hy, rfl⟩ := List.mem_map.1 hx
    obtain ⟨d, _, _, rfl, hdesc⟩ := deleteChildren_sound db id y hy
    exact hdesc
  · intro hx
    induction hx with
    | self =>
      obtain ⟨d, hd, hid, hlive, hpar, -⟩ :
          ∃ d ∈ db, d.Id = id ∧ d.DeletedAt = none ∧ d.Parent ≠ none ∧ True := by
        obtain ⟨d, hd, h1, h2, h3⟩ := hseed
        exact ⟨d, hd, h1, h2, h3, trivial⟩
      exact List.mem_map.2 ⟨d.idParent,
        deleteChildren_seed db id _ ((mem_deleteSeed db id _).2 ⟨d, hd, hid, hlive, hpar, rfl⟩),
        hid⟩
    | child d p _ hd hlive hpar ih =>
      obtain ⟨y, hy, hyp⟩ := List.mem_map.1 ih
      refine List.mem_map.2 ⟨d.idParent, deleteChildren_closed db id y hy _ ?_, rfl⟩
      exact ⟨d, hd, hlive, by rw [hyp]; exact hpar, rfl⟩

theorem deleteChildren_of_no_seed (db : List Directory) (id : DirectoryID)
    (hseed : ¬ LiveNonRoot db id) : deleteChildren db id = [] := by
  have hnil : deleteSeed db id = [] := by
    apply List.eq_nil_iff_forall_not_mem.2
    intro y hy
    obtain ⟨d, hd, hid, hlive, hpar, _⟩ := (mem_deleteSeed db id y).1 hy
    exact hseed ⟨d, hd, hid, hlive, hpar⟩
  unfold deleteChildren withRecursive
  rw [hnil]
  cases db.length with
  | zero => rfl
  | succ n =>
    rw [recursiveUnion_succ]
    have : deleteStep db ([] : List IdParent).dedup = [] := by
      apply List.eq_nil_iff_forall_not_mem.2
      intro y hy
      obtain ⟨x, hx, _⟩ := (mem_deleteStep db _ y).1 hy
      simp at hx
    rw [this]
    simp

theorem deleteHit_iff (db : List Directory) (id : DirectoryID) (d : Directory) :
    deleteHit db id d = true ↔
      LiveNonRoot db id ∧ d.DeletedAt = none ∧ LiveDescendant db id d.Id := by
  unfold deleteHit
  have hc : ∀ l : List DirectoryID, l.contains d.Id = true ↔ d.Id ∈ l := by
    intro l
    simp
  simp only [Bool.and_eq_true, Option.isNone_iff_eq_none, hc]
  by_cases hseed : LiveNonRoot db id
  · rw [mem_deleteChildren_ids db id hseed]
    exact ⟨fun h => ⟨hseed, h⟩, fun h => h.2⟩
  · rw [deleteChildren_of_no_seed db id hseed]
    simp [hseed]

theorem DeleteDirectory_result (t : Driver) (now : Time) (id : DirectoryID) :
    (t.DeleteDirectory now id).2
      = if ((t.db.filter (deleteHit t.db id)).map fun d =>
            { d with DeletedAt := some now }).length = 0
        then Except.error GoError.ErrDirectoryNotFound
        else Except.ok ((t.db.filter (deleteHit t.db id)).map fun d =>
            { d with DeletedAt := some now }) := by
  unfold Driver.DeleteDirectory
  simp only
  split <;> rfl

theorem DeleteDirectory_db (t : Driver) (now : Time) (id : DirectoryID) :
    (t.DeleteDirectory now id).1.db
      = t.db.map fun d =>
          if deleteHit t.db id d then { d with DeletedAt := some now } else d := by
  unfold Driver.DeleteDirectory
  simp only
  split <;> rfl

theorem DeleteDirectory_flags (t : Driver) (now : Time) (id : DirectoryID) :
    (t.DeleteDirectory now id).1.readOnly = t.readOnly ∧
    (t.DeleteDirectory now id).1.fastReads = t.fastReads := by
  unfold Driver.DeleteDirectory
  simp only
  split <;> exact ⟨rfl, rfl⟩

theorem deleteHit_seed_row (db : List Directory) (id : DirectoryID) (d : Directory)
    (hd : d ∈ db) (hid : d.Id = id) (hlive : d.DeletedAt = none) (hpar : d.Parent ≠ none) :
    deleteHit db id d = true := by
  rw [deleteHit_iff]
  refine ⟨⟨d, hd, hid, hlive, hpar⟩, hlive, ?_⟩
  rw [hid]
  exact LiveDescendant.self

theorem deleteHit_false_of_no_seed (db : List Directory) (id : DirectoryID)
    (hseed : ¬ LiveNonRoot db id) (d : Directory) : deleteHit db id d = false := by
  cases h : deleteHit db id d with
  | false => rfl
  | true => exact absurd ((deleteHit_iff db id d).1 h).1 hseed

theorem DeleteDirectory_succeeds (t : Driver) (now : Time) (id : DirectoryID)
    (hseed : LiveNonRoot t.db id) :
    ∃ affected, (t.DeleteDirectory now id).2 = Except.ok affected ∧ affected ≠ [] := by
  obtain ⟨d, hd, hid, hlive, hpar⟩ := hseed
  have hmem : d ∈ t.db.filter (deleteHit t.db id) :=
    List.mem_filter.2 ⟨hd, deleteHit_seed_row t.db id d hd hid hlive hpar⟩
  have hne : (t.db.filter (deleteHit t.db id)).map
      (fun d => { d with DeletedAt := some now }) ≠ [] := by
    intro hnil
    have := List.mem_map_of_mem (fun d : Directory => { d with DeletedAt := some now }) hmem
    rw [hnil] at this
    cases this
  refine ⟨_, ?_, hne⟩
  rw [DeleteDirectory_result, if_neg]
  rw [List.length_eq_zero]
  exact hne

theorem DeleteDirectory_fails (t : Driver) (now : Time) (id : DirectoryID)
    (hseed : ¬ LiveNonRoot t.db id) :
    (t.DeleteDirectory now id).2 = Except.error GoError.ErrDirectoryNotFound ∧
    (t.DeleteDirectory now id).1 = t := by
  have hnone := deleteHit_false_of_no_seed t.db id hseed
  have hfilter : t.db.filter (deleteHit t.db id) = [] := by
    apply List.eq_nil_iff_forall_not_mem.2
    intro d hd
    have := (List.mem_filter.1 hd).2
    rw [hnone d] at this
    cases this
  constructor
  · rw [DeleteDirectory_result, hfilter]
    rfl
  · have hdb := DeleteDirectory_db t now id
    have hfl := DeleteDirectory_flags t now id
    have hmap : (t.db.map fun d =>
        if deleteHit t.db id d then { d with DeletedAt := some now } else d) = t.db := by
      conv_rhs => rw [← List.map_id t.db]
      apply List.map_congr_left
      intro d _
      rw [hnone d]
      rfl
    rw [hmap] at hdb
    cases hres : (t.DeleteDirectory now id).1 with
    | mk db1 ro fr =>
      rw [hres] at hdb hfl
      cases t with
      | mk db0 ro0 fr0 =>
        simp only at hdb hfl
        rw [hdb, hfl.1, hfl.2]

/-- C6 (amended). `DeleteDirectory id` fails with `ErrDirectoryNotFound` exactly when no
row with that id is live and has a parent: the target is absent, already soft-deleted, or
a root. For a live directory that is not a root it succeeds with a non-empty affected
set. A failed call leaves the driver as it was. -/
theorem DeleteDirectory_not_found_iff (t : Driver) (now : Time) (id : DirectoryID) :
    ((t.DeleteDirectory now id).2 = Except.error GoError.ErrDirectoryNotFound ↔
      ¬ ∃ d ∈ t.db, d.Id = id ∧ d.DeletedAt = none ∧ d.Parent ≠ none) ∧
    ((∃ d ∈ t.db, d.Id = id ∧ d.DeletedAt = none ∧ d.Parent ≠ none) →
      ∃ affected, (t.DeleteDirectory now id).2 = Except.ok affected ∧ affected ≠ []) ∧
    ((¬ ∃ d ∈ t.db, d.Id = id ∧ d.DeletedAt = none ∧ d.Parent ≠ none) →
      (t.DeleteDirectory now id).1 = t) := by
  refine ⟨⟨?_, fun h => (DeleteDirectory_fails t now id h).1⟩,
    DeleteDirectory_succeeds t now id, fun h => (DeleteDirectory_fails t now id h).2⟩
  intro herr hseed
  obtain ⟨affected, hres, _⟩ := DeleteDirectory_succeeds t now id hseed
  rw [hres] at herr
  cases herr

/-- Counterexample for C6: the root `1` of the scenario table exists and is live, and
`DeleteDirectory 1` fails with `ErrDirectoryNotFound`. -/
theorem DeleteDirectory_live_root_not_found :
    (∃ d ∈ scenarioDriver.db, d.Id = 1 ∧ d.DeletedAt = none) ∧
    (scenarioDriver.DeleteDirectory 9 1).2 = Except.error GoError.ErrDirectoryNotFound :=
  ⟨⟨rootDir, List.mem_cons_self _ _, rfl, rfl⟩, rfl⟩

/-- Witness for C6 (amended): directory `a` of the scenario table is live and not a root,
so deleting it succeeds with a non-empty affected set. -/
theorem DeleteDirectory_not_found_iff_witness :
    (∃ d ∈ scenarioDriver.db, d.Id = 2 ∧ d.DeletedAt = none ∧ d.Parent ≠ none) ∧
    (∃ affected, (scenarioDriver.DeleteDirectory 9 2).2 = Except.ok affected ∧ affected ≠ []) :=
  ⟨⟨dirA, List.mem_cons_of_mem _ (List.mem_cons_self _ _), rfl, rfl, by decide⟩,
   (DeleteDirectory_not_found_iff scenarioDriver 9 2).2.1
     ⟨dirA, List.mem_cons_of_mem _ (List.mem_cons_self _ _), rfl, rfl, by decide⟩⟩

theorem filter_map_of_fixed {α : Type} (q : α → Bool) (f : α → α) :
    ∀ (l : List α), (∀ r ∈ l, (q r = true ∨ q (f r) = true) → f r = r) →
      (l.map f).filter q = l.filter q := by
  intro l
  induction l with
  | nil => intro _; rfl
  | cons a l ih =>
    intro h
    have ih1 := ih (fun r hr => h r (List.mem_cons_of_mem _ hr))
    have ha := h a (List.mem_cons_self _ _)
    rw [List.map_cons]
    by_cases hq : q (f a) = true
    · have hfa : f a = a := ha (Or.inr hq)
      rw [hfa] at hq ⊢
      rw [List.filter_cons_of_pos hq, List.filter_cons_of_pos hq, ih1]
    · by_cases hqa : q a = true
      · have hfa : f a = a := ha (Or.inl hqa)
        rw [hfa] at hq
        exact absurd hqa hq
      · rw [List.filter_cons_of_neg hq, List.filter_cons_of_neg hqa, ih1]

theorem mem_affected_ids (db : List Directory) (id : DirectoryID) (now : Time)
    (x : DirectoryID) :
    x ∈ ((db.filter (deleteHit db id)).map fun d =>
        ({ d with DeletedAt := some now } : Directory)).map Directory.Id ↔
      ∃ d ∈ db, deleteHit db id d = true ∧ d.Id = x := by
  simp only [List.map_map, List.mem_map, List.mem_filter, Function.comp]
  constructor
  · rintro ⟨d, ⟨hd, hhit⟩, hx⟩
    exact ⟨d, hd, hhit, hx⟩
  · rintro ⟨d, hd, hhit, hx⟩
    exact ⟨d, ⟨hd, hhit⟩, hx⟩

theorem DeleteDirectory_ok (t : Driver) (now : Time) (id : DirectoryID) (t1 : Driver)
    (affected : List Directory) (h : t.DeleteDirectory now id = (t1, Except.ok affected)) :
    LiveNonRoot t.db id ∧
    affected = ((t.db.filter (deleteHit t.db id)).map fun d =>
        ({ d with DeletedAt := some now } : Directory)) ∧
    t1.db = t.db.map (fun d =>
        if deleteHit t.db id d then { d with DeletedAt := some now } else d) := by
  have hres : (t.DeleteDirectory now id).2 = Except.ok affected := by rw [h]
  have hdb : (t.DeleteDirectory now id).1.db = t1.db := by rw [h]
  refine ⟨?_, ?_, ?_⟩
  · by_contra hseed
    have := (DeleteDirectory_fails t now id hseed).1
    rw [hres] at this
    cases this
  · rw [DeleteDirectory_result] at hres
    split at hres
    · cases hres
    · exact (Except.ok.inj hres).symm
  · rw [← hdb, DeleteDirectory_db]

/-- C7. Cascading soft delete. Whenever `DeleteDirectory id` succeeds, the ids of the
returned rows are exactly `id` together with every live directory reachable from `id`
through live directories by parent links; each returned row carries `DeletedAt = now`
and is a row of the new table; `GetDirectory` without `withDeleted` then fails with
`ErrDirectoryNotFound` for each of them; and every row outside the returned set is
unchanged, with `GetDirectory` answering for its id as before. -/
theorem DeleteDirectory_cascade (t : Driver) (now : Time) (id : DirectoryID) (t1 : Driver)
    (affected : List Directory) (h : t.DeleteDirectory now id = (t1, Except.ok affected)) :
    (∀ x, x ∈ affected.map Directory.Id ↔ LiveDescendant t.db id x) ∧
    (∀ d ∈ affected, d.DeletedAt = some now ∧ d ∈ t1.db) ∧
    (∀ d ∈ affected, t1.GetDirectory d.Id false = Except.error GoError.ErrDirectoryNotFound) ∧
    (∀ d, d.Id ∉ affected.map Directory.Id → (d ∈ t1.db ↔ d ∈ t.db)) ∧
    (∀ x withDeleted, x ∉ affected.map Directory.Id →
      t1.GetDirectory x withDeleted = t.GetDirectory x withDeleted) := by
  obtain ⟨hseed, haff, hdb⟩ := DeleteDirectory_ok t now id t1 affected h
  have hids : ∀ x, x ∈ affected.map Directory.Id ↔ LiveDescendant t.db id x := by
    intro x
    rw [haff, mem_affected_ids]
    constructor
    · rintro ⟨d, _, hhit, rfl⟩
      exact ((deleteHit_iff t.db id d).1 hhit).2.2
    · intro hx
      obtain ⟨y, hy, hyx⟩ := List.mem_map.1 ((mem_deleteChildren_ids t.db id hseed x).2 hx)
      obtain ⟨d, hd, hlive, rfl, hdesc⟩ := deleteChildren_sound t.db id y hy
      exact ⟨d, hd, (deleteHit_iff t.db id d).2 ⟨hseed, hlive, hdesc⟩, hyx⟩
  have hnothit : ∀ r ∈ t.db, r.Id ∉ affected.map Directory.Id → deleteHit t.db id r = false := by
    intro r hr hx
    cases hhit : deleteHit t.db id r with
    | false => rfl
    | true =>
      exfalso
      apply hx
      rw [haff, mem_affected_ids]
      exact ⟨r, hr, hhit, rfl⟩
  refine ⟨hids, ?_, ?_, ?_, ?_⟩
  · intro d hd
    rw [haff] at hd
    obtain ⟨r, hr, rfl⟩ := List.mem_map.1 hd
    obtain ⟨hr, hhit⟩ := List.mem_filter.1 hr
    refine ⟨rfl, ?_⟩
    rw [hdb]
    refine List.mem_map.2 ⟨r, hr, ?_⟩
    rw [if_pos hhit]
  · intro d hd
    have hdid : LiveDescendant t.db id d.Id := (hids d.Id).1 (List.mem_map_of_mem _ hd)
    unfold Driver.GetDirectory
    have hnil : (t1.db.filter fun r => r.Id == d.Id && (false || r.DeletedAt.isNone)) = [] := by
      apply List.eq_nil_iff_forall_not_mem.2
      intro r1 hr1
      obtain ⟨hr1, hq⟩ := List.mem_filter.1 hr1
      simp only [Bool.false_or, Bool.and_eq_true, beq_iff_eq,
        Option.isNone_iff_eq_none] at hq
      rw [hdb] at hr1
      obtain ⟨r, hr, rfl⟩ := List.mem_map.1 hr1
      by_cases hhit : deleteHit t.db id r = true
      · rw [if_pos hhit] at hq
        cases hq.2
      · rw [if_neg hhit] at hq
        apply hhit
        rw [deleteHit_iff]
        refine ⟨hseed, hq.2, ?_⟩
        rw [hq.1]
        exact hdid
    rw [hnil]
  · intro d hd
    rw [hdb]
    constructor
    · intro hmem
      obtain ⟨r, hr, rfl⟩ := List.mem_map.1 hmem
      by_cases hhit : deleteHit t.db id r = true
      · exfalso
        apply hd
        rw [haff, mem_affected_ids]
        rw [if_pos hhit]
        exact ⟨r, hr, hhit, rfl⟩
      · rw [if_neg hhit]
        exact hr
    · intro hmem
      refine List.mem_map.2 ⟨d, hmem, ?_⟩
      rw [hnothit d hmem hd]
      rfl
  · intro x withDeleted hx
    unfold Driver.GetDirectory
    have hfilter : (t1.db.filter fun d => d.Id == x && (withDeleted || d.DeletedAt.isNone))
        = t.db.filter fun d => d.Id == x && (withDeleted || d.DeletedAt.isNone) := by
      rw [hdb]
      apply filter_map_of_fixed
      intro r hr hq
      have hrx : r.Id = x := by
        rcases hq with hq | hq
        · simp only [Bool.and_eq_true, beq_iff_eq] at hq
          exact hq.1
        · by_cases hhit : deleteHit t.db id r = true
          · rw [if_pos hhit] at hq
            simp only [Bool.and_eq_true, beq_iff_eq] at hq
            exact hq.1
          · rw [if_neg hhit] at hq
            simp only [Bool.and_eq_true, beq_iff_eq] at hq
            exact hq.1
      rw [hnothit r hr (by rw [hrx]; exact hx)]
      rfl
    rw [hfilter]

/-- Witness for C7: scenario S5. Deleting `a` returns `a` and its child `c`; afterwards
`a` and `c` are not found, and the sibling `b` is still retrievable. -/
theorem DeleteDirectory_cascade_witness :
    (scenarioDriver.DeleteDirectory 9 2).2
      = Except.ok [{ dirA with DeletedAt := some 9 }, { dirC with DeletedAt := some 9 }] ∧
    ((∀ x, x ∈ [{ dirA with DeletedAt := some 9 }, { dirC with DeletedAt := some 9 }].map
          Directory.Id ↔ LiveDescendant scenarioDriver.db 2 x) ∧
     (∀ d ∈ [{ dirA with DeletedAt := some 9 }, { dirC with DeletedAt := some 9 }],
        d.DeletedAt = some 9 ∧ d ∈ (scenarioDriver.DeleteDirectory 9 2).1.db) ∧
     (∀ d ∈ [{ dirA with DeletedAt := some 9 }, { dirC with DeletedAt := some 9 }],
        (scenarioDriver.DeleteDirectory 9 2).1.GetDirectory d.Id false
          = Except.error GoError.ErrDirectoryNotFound) ∧
     (∀ d, d.Id ∉ [{ dirA with DeletedAt := some 9 }, { dirC with DeletedAt := some 9 }].map
          Directory.Id →
        (d ∈ (scenarioDriver.DeleteDirectory 9 2).1.db ↔ d ∈ scenarioDriver.db)) ∧
     (∀ x withDeleted,
        x ∉ [{ dirA with DeletedAt := some 9 }, { dirC with DeletedAt := some 9 }].map
          Directory.Id →
        (scenarioDriver.DeleteDirectory 9 2).1.GetDirectory x withDeleted
          = scenarioDriver.GetDirectory x withDeleted)) ∧
    (scenarioDriver.DeleteDirectory 9 2).1.GetDirectory 3 false = Except.ok dirB :=
  ⟨rfl,
   DeleteDirectory_cascade scenarioDriver 9 2 (scenarioDriver.DeleteDirectory 9 2).1
     [{ dirA with DeletedAt := some 9 }, { dirC with DeletedAt := some 9 }] rfl,
   rfl⟩

/-! ## Driver: read-only mode and the missing directory -/

theorem readOnly_refuses_create_update (t : Driver) (now : Time) (d : Directory)
    (hro : t.readOnly = true) :
    t.CreateRoot now d = (t, Except.error GoError.ErrReadOnly) ∧
    t.CreateDirectory now d = (t, Except.error GoError.ErrReadOnly) ∧
    t.UpdateDirectory now d = (t, Except.error GoError.ErrReadOnly) := by
  unfold Driver.CreateRoot Driver.CreateDirectory Driver.UpdateDirectory
  simp [hro]

/-- C8 (the code at the failing input). On the read-only driver over the scenario table,
`CreateRoot`, `CreateDirectory` and `UpdateDirectory` refuse with `ErrReadOnly` and leave
the driver as it was, but `DeleteDirectory` of `a` goes through: it returns `a` and `c`
as deleted and the table has changed. -/
theorem readOnly_DeleteDirectory_mutates :
    readOnlyDriver.readOnly = true ∧
    readOnlyDriver.CreateRoot 9 rootDir = (readOnlyDriver, Except.error GoError.ErrReadOnly) ∧
    readOnlyDriver.CreateDirectory 9 dirA
      = (readOnlyDriver, Except.error GoError.ErrReadOnly) ∧
    readOnlyDriver.UpdateDirectory 9 dirA
      = (readOnlyDriver, Except.error GoError.ErrReadOnly) ∧
    (readOnlyDriver.DeleteDirectory 9 2).2
      = Except.ok [{ dirA with DeletedAt := some 9 }, { dirC with DeletedAt := some 9 }] ∧
    (readOnlyDriver.DeleteDirectory 9 2).1.db
      = [rootDir, { dirA with DeletedAt := some 9 }, dirB, { dirC with DeletedAt := some 9 }] ∧
    (readOnlyDriver.DeleteDirectory 9 2).1.db ≠ readOnlyDriver.db := by
  refine ⟨rfl, rfl, rfl, rfl, rfl, rfl, by decide⟩

theorem UpdateDirectory_absent (t : Driver) (now : Time) (d : Directory)
    (hrw : t.readOnly = false) (habsent : ∀ r ∈ t.db, r.Id ≠ d.Id) :
    t.UpdateDirectory now d
      = (t, Except.error (GoError.wrap "error updating directory" GoError.sqlErrNoRows)) := by
  have hnil : (t.db.filter fun r => r.Id == d.Id) = [] := by
    apply List.eq_nil_iff_forall_not_mem.2
    intro r hr
    obtain ⟨hr, hq⟩ := List.mem_filter.1 hr
    exact habsent r hr (by simpa using hq)
  unfold Driver.UpdateDirectory
  simp only [hrw, hnil]
  rfl

/-- C9 (the code at the failing input). On the writable driver over the scenario table,
`UpdateDirectory` of a directory with the absent id `77` changes no row and fails with
`sql.ErrNoRows` wrapped in a message, which `errors.Is` does not recognise as
`ErrDirectoryNotFound`; `GetDirectory` of the same id returns `ErrDirectoryNotFound`. -/
theorem UpdateDirectory_absent_not_typed :
    scenarioDriver.readOnly = false ∧
    (∀ r ∈ scenarioDriver.db, r.Id ≠ (mkRoot 77 "x" 1).Id) ∧
    scenarioDriver.UpdateDirectory 9 (mkRoot 77 "x" 1)
      = (scenarioDriver,
         Except.error (GoError.wrap "error updating directory" GoError.sqlErrNoRows)) ∧
    GoError.errorsIs (GoError.wrap "error updating directory" GoError.sqlErrNoRows)
      GoError.ErrDirectoryNotFound = false ∧
    scenarioDriver.GetDirectory 77 false = Except.error GoError.ErrDirectoryNotFound := by
  refine ⟨rfl, by decide, rfl, rfl, rfl⟩

/-! ## Driver: the chain of parents -/

theorem chainRows_fst : ∀ (ps : List DirectoryID) (d : DirectoryID),
    (chainRows d ps).map Prod.fst = d :: ps := by
  intro ps
  induction ps with
  | nil => intro d; rfl
  | cons p ps ih =>
    intro d
    simp only [chainRows, List.map_cons, ih]

theorem LiveAncestors_head (db : List Directory) (d : DirectoryID) (ps : List DirectoryID)
    (h : LiveAncestors db d ps) :
    ∃ r ∈ db, r.Id = d ∧ r.DeletedAt = none ∧ r.Parent = ps.head? := by
  cases ps with
  | nil => exact h
  | cons p ps1 => exact h.1

theorem LiveAncestors_transGen (db : List Directory) :
    ∀ (ps : List DirectoryID) (d : DirectoryID), LiveAncestors db d ps →
      ∀ x ∈ ps, Relation.TransGen (ParentOf db) d x := by
  intro ps
  induction ps with
  | nil => intro d _ x hx; cases hx
  | cons p ps ih =>
    intro d h x hx
    obtain ⟨⟨r, hr, hid, _, hpar⟩, hrest⟩ := h
    have hstep : ParentOf db d p := ⟨r, hr, hid, hpar⟩
    rcases List.mem_cons.1 hx with hxp | hxp
    · rw [hxp]
      exact Relation.TransGen.single hstep
    · exact Relation.TransGen.head hstep (ih p hrest x hxp)

theorem LiveAncestors_nodup (db : List Directory) (hacyc : Acyclic db) :
    ∀ (ps : List DirectoryID) (d : DirectoryID), LiveAncestors db d ps → (d :: ps).Nodup := by
  intro ps
  induction ps with
  | nil => intro d _; simp
  | cons p ps ih =>
    intro d h
    refine List.nodup_cons.2 ⟨?_, ih p h.2⟩
    intro hd
    exact hacyc d (LiveAncestors_transGen db (p :: ps) d h d hd)

theorem LiveAncestors_mem (db : List Directory) :
    ∀ (ps : List DirectoryID) (d : DirectoryID), LiveAncestors db d ps →
      ∀ x ∈ d :: ps, x ∈ db.map Directory.Id := by
  intro ps
  induction ps with
  | nil =>
    intro d h x hx
    obtain ⟨r, hr, hid, _⟩ := h
    rw [List.mem_singleton.1 hx, ← hid]
    exact List.mem_map_of_mem _ hr
  | cons p ps ih =>
    intro d h x hx
    rcases List.mem_cons.1 hx with hxd | hxd
    · obtain ⟨⟨r, hr, hid, _⟩, _⟩ := h
      rw [hxd, ← hid]
      exact List.mem_map_of_mem _ hr
    · exact ih p h.2 x hxd

theorem filter_eq_singleton {α : Type} (q : α → Bool) (a : α) :
    ∀ (l : List α), l.Nodup → a ∈ l → (∀ r ∈ l, q r = true ↔ r = a) → l.filter q = [a] := by
  intro l
  induction l with
  | nil => intro _ ha; cases ha
  | cons b l ih =>
    intro hnd ha hq
    obtain ⟨hb, hnd1⟩ := List.nodup_cons.1 hnd
    by_cases hba : b = a
    · have hqb : q b = true := (hq b (List.mem_cons_self _ _)).2 hba
      rw [List.filter_cons_of_pos hqb]
      have hnil : l.filter q = [] := by
        apply List.eq_nil_iff_forall_not_mem.2
        intro r hr
        obtain ⟨hr, hqr⟩ := List.mem_filter.1 hr
        have := (hq r (List.mem_cons_of_mem _ hr)).1 hqr
        rw [this, ← hba] at hr
        exact hb hr
      rw [hnil, hba]
    · have hqb : ¬ q b = true := fun h => hba ((hq b (List.mem_cons_self _ _)).1 h)
      rw [List.filter_cons_of_neg hqb]
      have hal : a ∈ l := by
        rcases List.mem_cons.1 ha with h | h
        · exact absurd h.symm hba
        · exact h
      exact ih hnd1 hal (fun r hr => hq r (List.mem_cons_of_mem _ hr))

theorem UniqueIds.eq_of_id {db : List Directory} (huniq : UniqueIds db) {r r2 : Directory}
    (hr : r ∈ db) (hr2 : r2 ∈ db) (hid : r.Id = r2.Id) : r = r2 :=
  List.inj_on_of_nodup_map huniq hr hr2 hid

theorem parentsSeed_live (db : List Directory) (huniq : UniqueIds db) (r : Directory)
    (hr : r ∈ db) (hlive : r.DeletedAt = none) :
    parentsSeed db r.Id false = [r.idParent] := by
  unfold parentsSeed
  rw [filter_eq_singleton _ r db (List.Nodup.of_map _ huniq) hr]
  · rfl
  · intro r2 hr2
    simp only [Bool.false_or, Bool.and_eq_true, beq_iff_eq, Option.isNone_iff_eq_none]
    constructor
    · intro h
      exact huniq.eq_of_id hr2 hr h.1
    · intro h
      rw [h]
      exact ⟨rfl, hlive⟩

theorem parentsStep_some (db : List Directory) (huniq : UniqueIds db) (r : Directory)
    (hr : r ∈ db) (hlive : r.DeletedAt = none) (x : DirectoryID) :
    parentsStep db false [(x, some r.Id)] = [r.idParent] := by
  unfold parentsStep
  rw [filter_eq_singleton _ r db (List.Nodup.of_map _ huniq) hr]
  · rfl
  · intro r2 hr2
    simp only [Bool.false_or, Bool.and_eq_true, Option.isNone_iff_eq_none, List.any_cons,
      List.any_nil, Bool.or_false, beq_iff_eq, Option.some.injEq]
    constructor
    · intro h
      exact huniq.eq_of_id hr2 hr h.2.symm
    · intro h
      rw [h]
      exact ⟨hlive, rfl⟩

theorem parentsStep_none (db : List Directory) (withDeleted : Bool) (x : DirectoryID) :
    parentsStep db withDeleted [(x, none)] = [] := by
  unfold parentsStep
  apply List.eq_nil_iff_forall_not_mem.2
  intro y hy
  obtain ⟨r, hr, _⟩ := List.mem_map.1 hy
  have := (List.mem_filter.1 hr).2
  simp at this

theorem parentsStep_nil (db : List Directory) (withDeleted : Bool) :
    parentsStep db withDeleted [] = [] := by
  unfold parentsStep
  apply List.eq_nil_iff_forall_not_mem.2
  intro y hy
  obtain ⟨r, hr, _⟩ := List.mem_map.1 hy
  have := (List.mem_filter.1 hr).2
  simp at this

theorem recursiveUnion_step_nil {α : Type} [DecidableEq α] (step : List α → List α)
    (fuel : Nat) (acc work : List α) (hout : step work = []) :
    recursiveUnion step (fuel + 1) acc work = acc := by
  rw [recursiveUnion_succ, hout]
  simp

theorem recursiveUnion_step_singleton {α : Type} [DecidableEq α] (step : List α → List α)
    (fuel : Nat) (acc work : List α) (y : α) (hout : step work = [y]) (hy : y ∉ acc) :
    recursiveUnion step (fuel + 1) acc work = recursiveUnion step fuel (acc ++ [y]) [y] := by
  have hfresh : ((step work).dedup).filter (fun x => decide (x ∉ acc)) = [y] := by
    rw [hout]
    simp [hy]
  rw [recursiveUnion_succ, hfresh, if_neg (List.cons_ne_nil _ _)]

theorem parents_loop (db : List Directory) (huniq : UniqueIds db) :
    ∀ (ps : List DirectoryID) (d : DirectoryID) (acc : List IdParent) (fuel : Nat),
      LiveAncestors db d ps → (acc ++ chainRows d ps).Nodup → ps.length + 1 ≤ fuel →
      recursiveUnion (parentsStep db false) fuel (acc ++ [(d, ps.head?)]) [(d, ps.head?)]
        = acc ++ chainRows d ps := by
  intro ps
  induction ps with
  | nil =>
    intro d acc fuel _ _ hfuel
    obtain ⟨n, rfl⟩ : ∃ n, fuel = n + 1 := ⟨fuel - 1, by simp at hfuel; omega⟩
    rw [List.head?_nil, recursiveUnion_step_nil _ _ _ _ (parentsStep_none db false d)]
    rfl
  | cons p ps ih =>
    intro d acc fuel hchain hnd hfuel
    obtain ⟨n, rfl⟩ : ∃ n, fuel = n + 1 := ⟨fuel - 1, by simp at hfuel; omega⟩
    obtain ⟨rp, hrp, hrpid, hrplive, hrppar⟩ := LiveAncestors_head db p ps hchain.2
    have hstep : parentsStep db false [(d, some p)] = [(p, ps.head?)] := by
      rw [← hrpid, parentsStep_some db huniq rp hrp hrplive d]
      unfold Directory.idParent
      rw [hrppar]
    have hnd2 : ((acc ++ [(d, some p)]) ++ chainRows p ps).Nodup := by
      simpa [chainRows, List.append_assoc] using hnd
    have hnew : (p, ps.head?) ∉ acc ++ [(d, some p)] := by
      intro hmem
      have hin : (p, ps.head?) ∈ chainRows p ps := by
        cases ps with
        | nil => simp [chainRows]
        | cons q qs => simp [chainRows]
      exact (List.nodup_append.1 hnd2).2.2 hmem hin
    show recursiveUnion (parentsStep db false) (n + 1) (acc ++ [(d, some p)]) [(d, some p)]
      = acc ++ chainRows d (p :: ps)
    rw [recursiveUnion_step_singleton _ n _ _ _ hstep hnew]
    rw [ih p (acc ++ [(d, some p)]) n hchain.2 hnd2 (by simp at hfuel; omega)]
    simp [chainRows, List.append_assoc]

theorem recursiveUnion_parents_nil (db : List Directory) (withDeleted : Bool) (fuel : Nat) :
    recursiveUnion (parentsStep db withDeleted) fuel [] [] = [] := by
  cases fuel with
  | zero => rfl
  | succ n =>
    rw [recursiveUnion_succ, parentsStep_nil]
    simp

theorem GetParents_live_chain (t : Driver) (d : DirectoryID) (ps : List DirectoryID)
    (huniq : UniqueIds t.db) (hacyc : Acyclic t.db) (hchain : LiveAncestors t.db d ps) :
    t.GetParents d false = Except.ok ps := by
  obtain ⟨r, hr, hid, hlive, hpar⟩ := LiveAncestors_head t.db d ps hchain
  have hids : (d :: ps).Nodup := LiveAncestors_nodup t.db hacyc ps d hchain
  have hrows : (chainRows d ps).Nodup := by
    apply List.Nodup.of_map Prod.fst
    rw [chainRows_fst]
    exact hids
  have hlen : ps.length + 1 ≤ t.db.length := by
    have := (List.subperm_of_subset hids (LiveAncestors_mem t.db ps d hchain)).length_le
    simpa using this
  have hseed : parentsSeed t.db d false = [(d, ps.head?)] := by
    rw [← hid, parentsSeed_live t.db huniq r hr hlive]
    unfold Directory.idParent
    rw [hpar]
  have hrun : withRecursive (parentsSeed t.db d false) (parentsStep t.db false) t.db.length
      = chainRows d ps := by
    unfold withRecursive
    rw [hseed]
    simp only [List.dedup_cons_of_not_mem (List.not_mem_nil _), List.dedup_nil]
    have := parents_loop t.db huniq ps d [] t.db.length hchain (by simpa using hrows) hlen
    simpa using this
  unfold Driver.GetParents
  simp only [hrun, chainRows_fst]
  simp

theorem GetParents_missing (t : Driver) (d : DirectoryID)
    (hmissing : ¬ ∃ r ∈ t.db, r.Id = d ∧ r.DeletedAt = none) :
    t.GetParents d false = Except.error GoError.ErrDirectoryNotFound := by
  have hseed : parentsSeed t.db d false = [] := by
    unfold parentsSeed
    apply List.eq_nil_iff_forall_not_mem.2
    intro y hy
    obtain ⟨r, hr, _⟩ := List.mem_map.1 hy
    obtain ⟨hr, hq⟩ := List.mem_filter.1 hr
    simp only [Bool.false_or, Bool.and_eq_true, beq_iff_eq, Option.isNone_iff_eq_none] at hq
    exact hmissing ⟨r, hr, hq.1, hq.2⟩
  unfold Driver.GetParents withRecursive
  rw [hseed]
  simp only [List.dedup_nil, recursiveUnion_parents_nil]
  rfl

/-- C10. On a table with unique ids and no cycle, for a live directory `d` whose chain of
ancestors `ps` (immediate parent first, ending with a root) is live, `GetParents d`
without `withDeleted` returns exactly `ps`, which does not contain `d` (and is empty when
`d` is a root); and `GetParents d` fails with `ErrDirectoryNotFound` when no live row has
the id `d` (it does not exist or is deleted). -/
theorem GetParents_contract (t : Driver) (d : DirectoryID) :
    (∀ ps, UniqueIds t.db → Acyclic t.db → LiveAncestors t.db d ps →
      t.GetParents d false = Except.ok ps ∧ d ∉ ps) ∧
    ((¬ ∃ r ∈ t.db, r.Id = d ∧ r.DeletedAt = none) →
      t.GetParents d false = Except.error GoError.ErrDirectoryNotFound) := by
  refine ⟨fun ps huniq hacyc hchain => ⟨GetParents_live_chain t d ps huniq hacyc hchain, ?_⟩,
    GetParents_missing t d⟩
  exact (List.nodup_cons.1 (LiveAncestors_nodup t.db hacyc ps d hchain)).1

theorem acyclic_of_rank (db : List Directory) (rank : DirectoryID → Nat)
    (hrank : ∀ x p, ParentOf db x p → rank p < rank x) : Acyclic db := by
  have hlt : ∀ x y, Relation.TransGen (ParentOf db) x y → rank y < rank x := by
    intro x y hxy
    induction hxy with
    | single h => exact hrank _ _ h
    | tail _ h ih => exact lt_trans (hrank _ _ h) ih
  intro x hx
  exact lt_irrefl _ (hlt x x hx)

theorem scenarioTable_acyclic : Acyclic scenarioTable := by
  apply acyclic_of_rank scenarioTable id
  rintro x p ⟨r, hr, hid, hpar⟩
  simp only [scenarioTable, List.mem_cons, List.mem_singleton, List.not_mem_nil,
    or_false] at hr
  rcases hr with rfl | rfl | rfl | rfl <;> cases hpar <;> cases hid <;> decide

/-- Witness for C10: in the scenario table the ancestors of `c` are `a` and the root, and
the id `7` has no row. -/
theorem GetParents_contract_witness :
    (scenarioDriver.GetParents 4 false = Except.ok [2, 1] ∧ 4 ∉ [2, 1]) ∧
    scenarioDriver.GetParents 7 false = Except.error GoError.ErrDirectoryNotFound :=
  ⟨(GetParents_contract scenarioDriver 4).1 [2, 1]
      (by show (List.map Directory.Id scenarioDriver.db).Nodup; decide) scenarioTable_acyclic
      ⟨⟨dirC, by decide, rfl, rfl, rfl⟩, ⟨dirA, by decide, rfl, rfl, rfl⟩,
        ⟨rootDir, by decide, rfl, rfl, rfl⟩⟩,
   (GetParents_contract scenarioDriver 7).2 (by decide)⟩

/-! ## Controller: the ticker period -/

theorem wrapInt64_of_fits (x : Int) (h0 : 0 ≤ x) (h1 : x ≤ maxInt64) : wrapInt64 x = x := by
  unfold wrapInt64
  unfold maxInt64 at h1
  omega

theorem getRandomTickerDuration_value {σ ρ : Type} (c : controller σ ρ) (r : Int)
    (hmin : 0 ≤ c.frMinimumInterval) (hmax : 1 ≤ c.frMaximumInterval)
    (hunit : 0 ≤ c.frDuration) (hr0 : 0 ≤ r) (hr1 : r < c.frMaximumInterval)
    (hfit : (c.frMinimumInterval + c.frMaximumInterval - 1) * c.frDuration ≤ maxInt64) :
    c.getRandomTickerDuration r = some ((c.frMinimumInterval + r) * c.frDuration) := by
  unfold controller.getRandomTickerDuration
  rw [if_neg (by omega)]
  congr 1
  have hs0 : 0 ≤ c.frMinimumInterval + r := by omega
  have hsK : c.frMinimumInterval + r ≤ c.frMinimumInterval + c.frMaximumInterval - 1 := by
    omega
  have hprod : (c.frMinimumInterval + r) * c.frDuration
      ≤ (c.frMinimumInterval + c.frMaximumInterval - 1) * c.frDuration :=
    Int.mul_le_mul_of_nonneg_right hsK hunit
  have hprod0 : 0 ≤ (c.frMinimumInterval + r) * c.frDuration := Int.mul_nonneg hs0 hunit
  by_cases hzero : c.frDuration = 0
  · rw [hzero, Int.mul_zero, Int.mul_zero]
    exact wrapInt64_of_fits 0 (le_refl _) (by decide)
  · have hone : 1 ≤ c.frDuration := by omega
    have hsfit : c.frMinimumInterval + r ≤ maxInt64 := by
      have : (c.frMinimumInterval + r) * 1 ≤ (c.frMinimumInterval + r) * c.frDuration :=
        Int.mul_le_mul_of_nonneg_left hone hs0
      rw [Int.mul_one] at this
      exact le_trans this (le_trans hprod hfit)
    rw [wrapInt64_of_fits _ hs0 hsfit]
    exact wrapInt64_of_fits _ hprod0 (le_trans hprod hfit)

/-- C11 (amended). For a controller with `min ≥ 0`, `max ≥ 1`, `unit ≥ 0` whose largest
product `(min + max - 1) * unit` fits `time.Duration` (is at most `math.MaxInt64`), and
every draw `r` with `0 ≤ r < max`, `getRandomTickerDuration` returns `(min + r) * unit`;
so the period lies between `min * unit` and `(min + max - 1) * unit`, and both bounds
are attained, by the draws `0` and `max - 1`. -/
theorem getRandomTickerDuration_bounds {σ ρ : Type} (c : controller σ ρ) (r : Int)
    (hmin : 0 ≤ c.frMinimumInterval) (hmax : 1 ≤ c.frMaximumInterval)
    (hunit : 0 ≤ c.frDuration) (hr0 : 0 ≤ r) (hr1 : r < c.frMaximumInterval)
    (hfit : (c.frMinimumInterval + c.frMaximumInterval - 1) * c.frDuration ≤ maxInt64) :
    c.getRandomTickerDuration r = some ((c.frMinimumInterval + r) * c.frDuration) ∧
    c.frMinimumInterval * c.frDuration ≤ (c.frMinimumInterval + r) * c.frDuration ∧
    (c.frMinimumInterval + r) * c.frDuration
      ≤ (c.frMinimumInterval + c.frMaximumInterval - 1) * c.frDuration ∧
    c.getRandomTickerDuration 0 = some (c.frMinimumInterval * c.frDuration) ∧
    c.getRandomTickerDuration (c.frMaximumInterval - 1)
      = some ((c.frMinimumInterval + c.frMaximumInterval - 1) * c.frDuration) := by
  refine ⟨getRandomTickerDuration_value c r hmin hmax hunit hr0 hr1 hfit,
    Int.mul_le_mul_of_nonneg_right (by omega) hunit,
    Int.mul_le_mul_of_nonneg_right (by omega) hunit, ?_, ?_⟩
  · have := getRandomTickerDuration_value c 0 hmin hmax hunit (le_refl _) (by omega) hfit
    rw [Int.add_zero] at this
    exact this
  · have := getRandomTickerDuration_value c (c.frMaximumInterval - 1) hmin hmax hunit
      (by omega) (by omega) hfit
    rw [this]
    congr 2
    omega

/-- Counterexample for C11: with `min = 5`, `max = 10` and the unit
`time.Duration(1 << 62)`, all within the claim's conditions, the draw `0` gives the
period `2 ^ 62`: the product `5 * 2 ^ 62` does not fit `int64` and wraps around, so the
period is neither `(min + r) * unit` nor at least `min * unit`. -/
theorem getRandomTickerDuration_wraps :
    0 ≤ longUnitController.frMinimumInterval ∧ 1 ≤ longUnitController.frMaximumInterval ∧
    0 ≤ longUnitController.frDuration ∧ (0 : Int) < longUnitController.frMaximumInterval ∧
    longUnitController.getRandomTickerDuration 0 = some (2 ^ 62) ∧
    longUnitController.getRandomTickerDuration 0
      ≠ some ((longUnitController.frMinimumInterval + 0) * longUnitController.frDuration) ∧
    ¬ (longUnitController.frMinimumInterval * longUnitController.frDuration ≤ 2 ^ 62) := by
  decide

/-- Witness for C11 (amended): the default intervals `5`, `10`, one minute, and the
draw `3` give a period of eight minutes, between five and fourteen minutes. -/
theorem getRandomTickerDuration_bounds_witness :
    defaultIntervalController.getRandomTickerDuration 3 = some 480000000000 ∧
    (defaultIntervalController.getRandomTickerDuration 3
        = some ((defaultIntervalController.frMinimumInterval + 3)
            * defaultIntervalController.frDuration) ∧
      defaultIntervalController.frMinimumInterval * defaultIntervalController.frDuration
        ≤ (defaultIntervalController.frMinimumInterval + 3)
            * defaultIntervalController.frDuration ∧
      (defaultIntervalController.frMinimumInterval + 3) * defaultIntervalController.frDuration
        ≤ (defaultIntervalController.frMinimumInterval
            + defaultIntervalController.frMaximumInterval - 1)
            * defaultIntervalController.frDuration ∧
      defaultIntervalController.getRandomTickerDuration 0
        = some (defaultIntervalController.frMinimumInterval
            * defaultIntervalController.frDuration) ∧
      defaultIntervalController.getRandomTickerDuration
          (defaultIntervalController.frMaximumInterval - 1)
        = some ((defaultIntervalController.frMinimumInterval
            + defaultIntervalController.frMaximumInterval - 1)
            * defaultIntervalController.frDuration)) :=
  ⟨by decide,
   getRandomTickerDuration_bounds defaultIntervalController 3 (by decide) (by decide)
     (by decide) (by decide) (by decide) (by decide)⟩

end Fertilesoil
